import Mathlib

/-!
# A shallow embedding of the `fixture` test-fixture loader

This development models the Go package `fixture` (files `fixture.go`,
`command.go`, `graph.go`, the config file declaring `Config` /
`TableOptions`, and the command interpreter) and proves properties of the
evaluation pipeline: configuration resolution, the command DSL, the
dependency graph, topological sorting and the ordered-write protocol of
`Apply`.

Modelling conventions:
* Go maps are modelled as association lists with unique keys
  (`lookupA` / `setA`); Go's nondeterministic map-iteration order becomes
  the list order, which stands for one admissible order.
* Pointer-linked graph nodes (`*Node` with `from`/`to` slices of pointers)
  are flattened: nodes live in one list, edges store node ids.  The source
  keeps two indexes (`nodeIDs` by id, `nodesByKey` by label) over the same
  node set, kept in sync by construction; the model looks nodes up in the
  single list by id or by label.
* Closures are reified as data: the `ref` command's deferred callback
  `func() { return fixture.GetField(table, key, field) }` becomes the
  triple it reads, and the `updateCallback` setter closures passed down
  `parseField` become the slot (table, key, field, nested path) they
  write.
* External effects (gonum's `topo.Sort`, Go's `text/scanner`, ULID/UUID
  generation, template rendering, base64 decoding) are modelled from the
  spec, as noted at each definition.
* Unbounded recursion (`handleDatabase` iterating the recursive database,
  `parseField` descending through values) takes an explicit fuel
  parameter; running out of fuel is a model-level error.
-/

/-- Association-list lookup, modelling a Go map read `m[k]` with its
`ok` flag (`none` = absent). -/
def lookupA {κ α : Type} [DecidableEq κ] (m : List (κ × α)) (k : κ) : Option α :=
  (m.find? (fun p => p.1 = k)).map (fun p => p.2)

/-- Association-list update, modelling a Go map write `m[k] = v`. -/
def setA {κ α : Type} [DecidableEq κ] (m : List (κ × α)) (k : κ) (v : α) :
    List (κ × α) :=
  if (m.find? (fun p => p.1 = k)).isSome then
    m.map (fun p => if p.1 = k then (k, v) else p)
  else
    m ++ [(k, v)]

/-- Dynamically-typed field values (`any` in the Go source).  Scalar
variants beyond strings and integers (floats, timestamps) all take the
`switch` default branch in `parseField`, as `int`/`bool`/`bytes`/`backend`
do here.  `backend` stands for opaque backend- or environment-provided
values (ULIDs, UUIDs, `RETURNING`-columns).  `fn` models field values of
type `func(string) (any, error)`; `nil` is Go's nil `any`. -/
inductive Value where
  | nil
  | str (s : String)
  | int (n : Int)
  | bool (b : Bool)
  | bytes (bs : List Nat)
  | backend (n : Nat)
  | list (xs : List Value)
  | map (m : List (String × Value))
  | fn (g : String → Except String Value)

/-- `type Record map[string]any` -/
abbrev Record := List (String × Value)

/-- `type Table map[string]Record` -/
abbrev Table := List (String × Record)

/-- `type Database map[string]Table` -/
abbrev Database := List (String × Table)

/-- Node label `[2]string` = (table, key). -/
abbrev Label := String × String

/-- `TableOptions` from the configuration file.  The `WriteMode` field and
its constants are referenced by `parseTable` but their declaration is not
among the provided sources; per the spec (`TableOptions: (..., writeMode?)`)
it is an integer whose zero value means "unset". -/
structure TableOptions where
  TableName : String := ""
  PrimaryKeyName : String := ""
  References : List (String × String) := []
  DefaultValues : Record := []
  BeforeWrite : Option (Record → Except String Record) := none
  WriteMode : Nat := 0

/-- Modelled from the spec: the `WriteSync` write-mode constant is not in
the provided sources; it is some fixed nonzero value. -/
def WriteSync : Nat := 1

/-- `Config`: global defaults plus per-table options.  `tableAliases` is
built by `init`. -/
structure Config where
  PrimaryKeyName : String := ""
  References : List (String × String) := []
  TableOptions : List (String × TableOptions) := []
  WriteMode : Nat := 0
  tableAliases : List (String × String) := []

/-- `(*Config).init`: materialize the `"id"` default primary key and the
alias index.  The Go original runs under `sync.Once` and mutates in place;
the model is the idempotent function it computes. -/
def Config.init (c : Config) : Config :=
  let c := if c.PrimaryKeyName = "" then { c with PrimaryKeyName := "id" } else c
  { c with
    tableAliases :=
      c.TableOptions.foldl
        (fun acc p =>
          if p.2.TableName ≠ "" then setA acc p.1 p.2.TableName else acc)
        [] }

/-- `(*Config).TableAlias` -/
def Config.TableAlias (c : Config) (table : String) : String :=
  (lookupA c.tableAliases table).getD ""

/-- `ErrPrimaryKeyUndefined` -/
def ErrPrimaryKeyUndefined : String := "primary key undefined"

/-- `(*Config).GetPrimaryKeyName` -/
def Config.GetPrimaryKeyName (c : Config) (table : String) :
    Except String String :=
  match lookupA c.TableOptions table with
  | some options =>
    if options.PrimaryKeyName ≠ "" then .ok options.PrimaryKeyName
    else if c.PrimaryKeyName ≠ "" then .ok c.PrimaryKeyName
    else .error ErrPrimaryKeyUndefined
  | none =>
    if c.PrimaryKeyName ≠ "" then .ok c.PrimaryKeyName
    else .error ErrPrimaryKeyUndefined

/-- `(*Config).GetReference`: resolve the reference target for
`(table, field)`.  Mirrors the Go `switch` with its `fallthrough`: a
per-table entry with empty target suppresses the reference; a per-table
map that lacks the field falls through to the global map (the
`fallthrough` enters the second case body without re-testing its guard). -/
def Config.GetReference (c : Config) (table field : String) :
    Except String (String × String) :=
  let srcReferences :=
    match lookupA c.TableOptions table with
    | some opts => opts.References
    | none => []
  let srcHasReferences := srcReferences.length > 0
  let refTable :=
    if srcHasReferences then
      match lookupA srcReferences field with
      | some t => if t ≠ "" then t else ""
      | none =>
        -- fallthrough into the global-references case body
        (lookupA c.References field).getD ""
    else if c.References.length > 0 then
      (lookupA c.References field).getD ""
    else ""
  if refTable = "" then
    .ok ("", "")
  else
    match c.GetPrimaryKeyName refTable with
    | .ok pk => .ok (refTable, pk)
    | .error e =>
      .error ("failed to get primary key name for ref table " ++ refTable
        ++ ": " ++ e)

/-- `CommandInput`.  The Go struct also carries `Fixture *Fixture`; the
model passes the pieces a command reads from it (the `Config`, the
fresh-value counter) as separate arguments. -/
structure CommandInput where
  Table : String := ""
  Key : String := ""
  Field : String := ""
  Line : String := ""

/-- Path from a record field down into nested sequence/map values; the
reification of the `updateCallback` setter closures `parseField` builds
while descending. -/
inductive PathElem where
  | idx (i : Nat)
  | key (k : String)
deriving DecidableEq

/-- The slot a deferred callback writes: record field of `(table, key)`,
possibly descending a nested path. -/
structure Slot where
  table : String
  key : String
  field : String
  path : List PathElem := []
deriving DecidableEq

/-- `CommandDependency`.  The only producer of the `Callback` closure is
`refCommand`, whose closure is `func() { return fixture.GetField(table,
key, field) }`; the closure is reified as the `(table, key, field)` triple
it reads (`none` = nil callback). -/
structure CommandDependency where
  Label : Label
  Callback : Option (String × String × String) := none
deriving DecidableEq

/-- `CommandOutput` -/
structure CommandOutput where
  Dependencies : List CommandDependency := []
  IsUpdate : Bool := false
  Value : Value := .nil

/-- Modelled from the spec: the line tokenizer (`text/scanner` in the Go
source, an external package).  Per spec §4.2 the line is split into
identifier / literal / `=` tokens: whitespace separates, `=` is its own
token, a double-quoted literal is one token.  Fuel is the remaining
character count. -/
def scanTokensF : Nat → List Char → List String
  | 0, _ => []
  | _, [] => []
  | fuel + 1, c :: rest =>
    if c = ' ' ∨ c = '\t' ∨ c = '\n' ∨ c = '\r' then
      scanTokensF fuel rest
    else if c = '=' then
      "=" :: scanTokensF fuel rest
    else if c = '"' then
      let body := rest.takeWhile (fun d => d ≠ '"')
      let rest2 := (rest.dropWhile (fun d => d ≠ '"')).drop 1
      ("\"" ++ String.mk body ++ "\"") :: scanTokensF fuel rest2
    else
      let tok := rest.takeWhile
        (fun d => ¬(d = ' ' ∨ d = '\t' ∨ d = '\n' ∨ d = '\r' ∨ d = '='
          ∨ d = '"'))
      let rest2 := rest.dropWhile
        (fun d => ¬(d = ' ' ∨ d = '\t' ∨ d = '\n' ∨ d = '\r' ∨ d = '='
          ∨ d = '"'))
      String.mk (c :: tok) :: scanTokensF fuel rest2

/-- Tokenize a command line. -/
def scanTokens (line : String) : List String :=
  scanTokensF line.toList.length line.toList

/-- Accumulator of the `parse` closure inside `ScanLine`. -/
structure ScanSt where
  args : List String := []
  kwargs : List (String × String) := []
  equalsPrefix : Bool := false
  lastTxt : String := ""

/-- The `parse` closure inside `(*CommandInput).ScanLine`: a bare token is
buffered; `=` arms keyword mode; the token after `=` pairs with the
buffered one as a keyword argument; a newly seen token flushes the buffer
as a positional argument. -/
def scanParse (st : ScanSt) (txt : String) : ScanSt :=
  if txt = "=" then
    { st with equalsPrefix := true }
  else if st.equalsPrefix then
    { st with
      equalsPrefix := false
      kwargs := setA st.kwargs st.lastTxt txt
      lastTxt := "" }
  else if st.lastTxt ≠ "" then
    { st with args := st.args ++ [st.lastTxt], lastTxt := txt }
  else
    { st with lastTxt := txt }

/-- `(*CommandInput).ScanLine`: tokenize `Line` and fold `parse` over the
tokens, with a final `parse("")` flushing a dangling trailing token. -/
def CommandInput.ScanLine (inp : CommandInput) :
    Except String (List String × List (String × String)) :=
  if inp.Line = "" then
    .ok ([], [])
  else
    let st := (scanTokens inp.Line).foldl scanParse {}
    let st := scanParse st ""
    .ok (st.args, st.kwargs)

/-- A command handler.  In Go: `func(in *CommandInput) (*CommandOutput,
error)` where `in.Fixture` gives access to the `Config` and (for the
value-generating commands) process randomness; the model passes the config
and a fresh-value counter explicitly and returns the advanced counter. -/
def CommandFunc :=
  Config → CommandInput → Nat → Except String (CommandOutput × Nat)

/-- Modelled from the spec: `strconv.Unquote` (Go stdlib) restricted to
what the fixture engine feeds it — a double-quoted token; escapes are not
interpreted. -/
def unquote (s : String) : Except String String :=
  match s.toList with
  | '"' :: rest =>
    if rest ≠ [] ∧ rest.getLast? = some '"' then
      .ok (String.mk (rest.take (rest.length - 1)))
    else .error "invalid syntax"
  | _ => .error "invalid syntax"

/-- `base64DecodeCommand`.  Modelled from the spec: stdlib base64 decoding
is external; the decoded byte sequence is represented by the code points
of the unquoted payload. -/
def base64DecodeCommand : CommandFunc := fun _ inp fresh => do
  let (args, _) ← inp.ScanLine
  if args.length = 0 then
    .error "expected at least 1 positional argument"
  else
    match unquote (args.headD "") with
    | .error e => .error ("failed to unquote base64 string: " ++ e)
    | .ok encoded =>
      .ok ({ Value := .bytes (encoded.toList.map Char.toNat) }, fresh)

/-- `keyCommand`: emit the enclosing record's key, optionally converted to
an integer when the single positional argument is `int`. -/
def keyCommand : CommandFunc := fun _ inp fresh => do
  let (args, _) ← inp.ScanLine
  let t := args.headD ""
  if t = "" then
    .ok ({ Value := .str inp.Key }, fresh)
  else if t = "int" then
    match inp.Key.toInt? with
    | some n => .ok ({ Value := .int n }, fresh)
    | none => .error "failed to convert key to int"
  else
    .error ("unsupported key type: " ++ t)

/-- `refCommand`: declare a dependency on `(table, key)` (with `#`
standing for the enclosing record's key), the field defaulting to the
target table's primary-key name, and register the deferred
`GetField(table, key, field)` callback. -/
def refCommand : CommandFunc := fun cfg inp fresh => do
  let (args, _) ← inp.ScanLine
  if args.length < 2 then
    .error "expected at least 2 positional arguments"
  else
    let table := args.headD ""
    let key := (args.drop 1).headD ""
    let field :=
      if args.length ≥ 3 then (args.drop 2).headD ""
      else
        match lookupA cfg.TableOptions table with
        | some tableOptions =>
          if tableOptions.PrimaryKeyName ≠ "" then tableOptions.PrimaryKeyName
          else cfg.PrimaryKeyName
        | none => cfg.PrimaryKeyName
    let key := if key = "#" then inp.Key else key
    .ok ({ Dependencies := [{ Label := (table, key),
                              Callback := some (table, key, field) }] },
         fresh)

/-- Modelled from the spec: template rendering is an opaque external
pre-pass producing text; the model leaves the source line unrendered. -/
def renderTemplate (line : String) : String := line

/-- `templateCommand`: render the line against the fixture's template
data; the value is the rendered string. -/
def templateCommand : CommandFunc := fun _ inp fresh =>
  .ok ({ Value := .str (renderTemplate inp.Line) }, fresh)

/-- `ulidCommand`.  Modelled from the spec: ULID generation/parsing is
external randomness; a generated identifier is a fresh opaque value, and
`toString=true` yields its textual form. -/
def ulidCommand : CommandFunc := fun _ inp fresh => do
  let (_, kwargs) ← inp.ScanLine
  let value :=
    if lookupA kwargs "toString" = some "true" then
      Value.str ("ulid-" ++ toString fresh)
    else
      Value.backend fresh
  .ok ({ Value := value }, fresh + 1)

/-- `uuidv4Command`.  Modelled from the spec: UUID generation is external
randomness; modelled as a fresh opaque value. -/
def uuidv4Command : CommandFunc := fun _ _ fresh =>
  .ok ({ Value := .backend fresh }, fresh + 1)

/-- The command registry `commands`. -/
def commands : List (String × CommandFunc) :=
  [("base64dec", base64DecodeCommand),
   ("key", keyCommand),
   ("ref", refCommand),
   ("template", templateCommand),
   ("ulid", ulidCommand),
   ("uuidv4", uuidv4Command)]

/-- The command-name scan loop of `parseField` (fixture.go): starting at
index 1, bytes are accumulated into the name until the first space,
newline or tab, whose index becomes `breakIndex`; if no whitespace occurs
`breakIndex` stays 0.  Returns the name and `breakIndex`. -/
def cmdNameLoop : List Char → Nat → (List Char × Nat)
  | [], _ => ([], 0)
  | c :: rest, i =>
    if c = ' ' ∨ c = '\n' ∨ c = '\t' then ([], i)
    else
      let r := cmdNameLoop rest (i + 1)
      (c :: r.1, r.2)

/-- Command-name extraction from a command string `v` (starting with
`=`): the name and the break index. -/
def scanCmdName (v : String) : String × Nat :=
  let r := cmdNameLoop (v.toList.drop 1) 1
  (String.mk r.1, r.2)

/-- The line handed to the command: `v[breakIndex:]` when `breakIndex >
0`, the empty string otherwise (fixture.go, `parseField`). -/
def cmdLineOf (v : String) : String :=
  let r := scanCmdName v
  if r.2 > 0 then String.mk (v.toList.drop r.2) else ""

/-- A deferred post-write callback attached to a dependency node: read the
field `src` (the `GetField` closure of `refCommand`) and write the result
into the dependent's slot `dst` (the `updateCallback` closure). -/
structure CallbackData where
  src : String × String × String
  dst : Slot
deriving DecidableEq

/-- `Node` (graph.go), flattened: the `from`/`to` pointer slices become
id lists (`from` = nodes this node must precede, i.e. its graph
successors; `to` = its predecessors). -/
structure NodeData where
  id : Int
  label : Label
  fromNodes : List Int := []
  toNodes : List Int := []
  callbacks : List CallbackData := []
deriving DecidableEq

/-- Mutable evaluation state of one `Apply` run: the fixture's database,
the node set (`nodeIDs`/`nodesByKey` in the source), the id counter, the
touched-label set, and the fresh-value counter standing for external
randomness. -/
structure EvalSt where
  database : Database
  nodes : List NodeData := []
  nodeSeq : Int := 0
  touchedNodes : List Label := []
  fresh : Nat := 0

/-- Node lookup by id (`f.nodeIDs[id]`). -/
def findNode (nodes : List NodeData) (i : Int) : Option NodeData :=
  nodes.find? (fun n => n.id = i)

/-- Node lookup by label (`f.nodesByKey[label]`). -/
def findNodeByLabel (nodes : List NodeData) (l : Label) : Option NodeData :=
  nodes.find? (fun n => n.label = l)

/-- `(*Fixture).GetNode`: return the existing node for `label`, or mint a
fresh one with the next id.  Returns the node's id (the pointer in Go). -/
def getNode (label : Label) (st : EvalSt) : Int × EvalSt :=
  match findNodeByLabel st.nodes label with
  | some n => (n.id, st)
  | none =>
    let seq := st.nodeSeq + 1
    (seq,
     { st with
       nodeSeq := seq
       nodes := st.nodes ++ [{ id := seq, label := label }] })

/-- `(*Node).AppendFrom` on the node with id `i` (adds `other` to its
successor list). -/
def appendFrom (i other : Int) (st : EvalSt) : EvalSt :=
  { st with
    nodes := st.nodes.map
      (fun n =>
        if n.id = i then { n with fromNodes := n.fromNodes ++ [other] }
        else n) }

/-- `(*Node).AppendTo` on the node with id `i` (adds `other` to its
predecessor list). -/
def appendTo (i other : Int) (st : EvalSt) : EvalSt :=
  { st with
    nodes := st.nodes.map
      (fun n =>
        if n.id = i then { n with toNodes := n.toNodes ++ [other] }
        else n) }

/-- Append a reified callback to the node with id `i`
(`dependencyNode.callbacks = append(...)` in `parseField`). -/
def appendCallback (i : Int) (cb : CallbackData) (st : EvalSt) : EvalSt :=
  { st with
    nodes := st.nodes.map
      (fun n =>
        if n.id = i then { n with callbacks := n.callbacks ++ [cb] }
        else n) }

/-- `(*Fixture).edgeBetween`: the two-loop scan.  First the `u` node's
successor list is searched for `v` (result `(true, true)`); then the `v`
node's predecessor list is searched for `u` (result `(true, false)`). -/
def edgeBetween (nodes : List NodeData) (uid vid : Int) : Bool × Bool :=
  match findNode nodes uid, findNode nodes vid with
  | some na, some nb =>
    if vid ∈ na.fromNodes then (true, true)
    else if uid ∈ nb.toNodes then (true, false)
    else (false, false)
  | _, _ => (false, false)

/-- `(*Fixture).HasEdgeBetween` -/
def HasEdgeBetween (nodes : List NodeData) (xid yid : Int) : Bool :=
  (edgeBetween nodes xid yid).1

/-- `(*Fixture).HasEdgeFromTo` -/
def HasEdgeFromTo (nodes : List NodeData) (uid vid : Int) : Bool :=
  let r := edgeBetween nodes uid vid
  if !r.1 then false else r.2

/-- `(*Fixture).Edge`, reified as the `(from, to)` id pair of the returned
`*Edge` (`none` = nil).  The second branch builds the reversed edge. -/
def EdgeEnds (nodes : List NodeData) (uid vid : Int) : Option (Int × Int) :=
  let r := edgeBetween nodes uid vid
  if !r.1 then none
  else if r.2 then some (uid, vid)
  else some (vid, uid)

/-- `ErrTableNotFound` / `ErrRecordNotFound` / `ErrFieldNotFound`.  (The
`ErrDatabaseNotFound` guard of the source checks the Go map against `nil`,
which has no analogue for the association list.) -/
def ErrTableNotFound : String := "table not found"

/-- `ErrRecordNotFound` -/
def ErrRecordNotFound : String := "record not found"

/-- `ErrFieldNotFound` -/
def ErrFieldNotFound : String := "field not found"

/-- `(*Fixture).GetField` -/
def GetField (db : Database) (table key field : String) :
    Except String Value :=
  match lookupA db table with
  | none => .error ErrTableNotFound
  | some tableItem =>
    match lookupA tableItem key with
    | none => .error ErrRecordNotFound
    | some record =>
      match lookupA record field with
      | none => .error ErrFieldNotFound
      | some value => .ok value

/-- Write a value through a nested path (the body of an `updateCallback`
closure writing `t[i] = v` / `t[k] = v` at depth). -/
def setValuePath : Value → List PathElem → Value → Value
  | _, [], v => v
  | .list xs, .idx i :: rest, v =>
    .list (xs.set i (setValuePath (xs.getD i (.str "")) rest v))
  | .map m, .key k :: rest, v =>
    .map (setA m k (setValuePath ((lookupA m k).getD (.str "")) rest v))
  | old, _, _ => old

/-- Fire an `updateCallback`: write `v` into the slot captured at
registration (record field, sequence index, or map key). -/
def setSlot (db : Database) (s : Slot) (v : Value) : Database :=
  match lookupA db s.table with
  | none => db
  | some tbl =>
    match lookupA tbl s.key with
    | none => db
    | some record =>
      let newFieldVal :=
        match s.path with
        | [] => v
        | _ => setValuePath ((lookupA record s.field).getD (.str "")) s.path v
      setA db s.table (setA tbl s.key (setA record s.field newFieldVal))

/-- The default-value merge loop of `parseTable`: for each default, add it
only when the record lacks the key. -/
def mergeDefaults (defaultValues : Record) (record : Record) : Record :=
  defaultValues.foldl
    (fun r kv => if (lookupA r kv.1).isSome then r else r ++ [kv])
    record

/-- The `syncWrites` condition computed at the top of `parseTable`:
the global write-mode is sync and the table does not override it, or the
table's own write-mode is sync. -/
def syncWritesFor (cfg : Config) (table : String) : Bool :=
  match lookupA cfg.TableOptions table with
  | none => cfg.WriteMode == WriteSync
  | some tableOptions =>
    (cfg.WriteMode == WriteSync && tableOptions.WriteMode == 0)
      || tableOptions.WriteMode == WriteSync

/-- Modelled from the spec: `sort.Strings` (Go stdlib) sorts ascending
lexicographically by bytes; the model compares by code points. -/
def lexLe : List Char → List Char → Bool
  | [], _ => true
  | _ :: _, [] => false
  | a :: as, b :: bs =>
    if a.toNat < b.toNat then true
    else if b.toNat < a.toNat then false
    else lexLe as bs

/-- Lexicographic `≤` on strings as a proposition (the order of
`sort.Strings`). -/
def strLeP (a b : String) : Prop := lexLe a.toList b.toList = true

instance : DecidableRel strLeP := fun _ _ => instDecidableEqBool _ _

/-- Strict lexicographic order on strings. -/
def strLtP (a b : String) : Prop := strLeP a b ∧ a ≠ b

/-- `sort.Strings`, modelled as insertion sort under `strLeP`. -/
def sortStrings (keys : List String) : List String :=
  List.insertionSort strLeP keys

/-- One record-level error annotation (`RecordError` carries table, key
and field). -/
def recordErr (table key field e : String) : String :=
  "table " ++ table ++ ", key " ++ key ++ ", field " ++ field ++ ": " ++ e

/-- The dependency-registration loop body of `parseField`: materialize
the dependency's node, append the reified callback (wrapping the
dependency callback with the setter `slot`), record the edge in both
endpoints, and — unless disabled or already touched — mark the label
touched and add a fresh empty record to the recursive database when the
fixture database lacks it. -/
def parseFieldDep (dnc : Bool) (nodeId : Int) (slot : Slot)
    (acc : Database × EvalSt) (dependency : CommandDependency) :
    Except String (Database × EvalSt) :=
  let rec0 := acc.1
  let st := acc.2
  let dependencyNodeKey := dependency.Label
  let r2 := getNode dependencyNodeKey st
  let dependencyNode := r2.1
  let st := r2.2
  let st :=
    match dependency.Callback with
    | some src => appendCallback dependencyNode { src := src, dst := slot } st
    | none => st
  let st := appendFrom dependencyNode nodeId st
  let st := appendTo nodeId dependencyNode st
  if dnc || st.touchedNodes.contains dependencyNodeKey then
    .ok (rec0, st)
  else
    let st :=
      { st with touchedNodes := st.touchedNodes ++ [dependencyNodeKey] }
    let depTableName := dependencyNodeKey.1
    let depKey := dependencyNodeKey.2
    match lookupA st.database depTableName with
    | some depTable =>
      if (lookupA depTable depKey).isSome then
        .ok (rec0, st)
      else
        let recTable := (lookupA rec0 depTableName).getD []
        .ok (setA rec0 depTableName (setA recTable depKey []), st)
    | none =>
      let recTable := (lookupA rec0 depTableName).getD []
      .ok (setA rec0 depTableName (setA recTable depKey []), st)

/-- The func-value check at the top of `parseField`: a value of type
`func(string) (any, error)` is invoked with the record key and replaced
by its return. -/
def applyFnValue (key : String) (value : Value) : Except String Value :=
  match value with
  | .fn g =>
    match g key with
    | .error e => .error ("failed to execute func: " ++ e)
    | .ok v => .ok v
  | v => .ok v

/-- The type switch of `parseField` over the (func-resolved) value:
recurse into sequences and maps, rewrite declared reference fields to
`=ref` commands, dispatch commands, and register dependency edges plus
deferred callbacks.  `recurse` is `parseField` at the next fuel level. -/
def parseFieldSwitch (cfg : Config) (dnc : Bool)
    (recurse : String → String → String → Value → Int → Slot → Database →
      EvalSt → Except String (Value × Database × EvalSt))
    (table key field : String) (value : Value) (nodeId : Int) (slot : Slot)
    (rec0 : Database) (st : EvalSt) :
    Except String (Value × Database × EvalSt) :=
  match value with
  | .list xs =>
    match
      xs.enum.foldlM
        (fun (acc : List Value × Database × EvalSt) p =>
          match recurse table key (field ++ "." ++ toString p.1) p.2 nodeId
              { slot with path := slot.path ++ [.idx p.1] } acc.2.1
              acc.2.2 with
          | .error e =>
            Except.error ("failed to parse field " ++ field ++ "."
              ++ toString p.1 ++ ": " ++ e)
          | .ok (a, rec2, st2) => Except.ok (acc.1 ++ [a], rec2, st2))
        ([], rec0, st) with
    | .error e => .error e
    | .ok _ =>
      -- Go then falls out of the type switch with `v` still the empty
      -- string and panics evaluating `v[0]`.
      .error "panic: runtime error: index out of range [0] with length 0"
  | .map m =>
    match
      m.foldlM
        (fun (acc : List (String × Value) × Database × EvalSt) p =>
          match recurse table key (field ++ "." ++ p.1) p.2 nodeId
              { slot with path := slot.path ++ [.key p.1] } acc.2.1
              acc.2.2 with
          | .error e =>
            Except.error ("failed to parse field " ++ field ++ "."
              ++ p.1 ++ ": " ++ e)
          | .ok (a, rec2, st2) =>
            Except.ok (acc.1 ++ [(p.1, a)], rec2, st2))
        ([], rec0, st) with
    | .error e => .error e
    | .ok (m2, rec2, st2) => .ok (.map m2, rec2, st2)
  | .str s =>
    if s = "" then .ok (value, rec0, st)
    else
      -- reference rewrite for non-command strings
      match
        (if s.toList.headD '=' ≠ '=' then
          match cfg.GetReference table field with
          | .error e =>
            Except.error ("failed to get reference for " ++ table ++ "."
              ++ field ++ ": " ++ e)
          | .ok (refTable, _) =>
            if refTable ≠ "" then
              Except.ok (some ("=ref " ++ refTable ++ " " ++ s))
            else Except.ok none
        else Except.ok (some s)) with
      | .error e => .error e
      | .ok none => .ok (value, rec0, st)
      | .ok (some v) =>
        let r := scanCmdName v
        match lookupA commands r.1 with
        | none => .error ("unknown command: " ++ r.1)
        | some cmdFunc =>
          let cmdIn : CommandInput :=
            { Table := table, Key := key, Field := field
              Line := if r.2 > 0 then String.mk (v.toList.drop r.2)
                else "" }
          match cmdFunc cfg cmdIn st.fresh with
          | .error e =>
            .error ("failed to execute command " ++ r.1 ++ ": " ++ e)
          | .ok (cmdOut, fresh) =>
            let st := { st with fresh := fresh }
            if cmdOut.Dependencies.length = 0 then
              .ok (cmdOut.Value, rec0, st)
            else
              match
                (cmdOut.Dependencies.foldlM
                  (parseFieldDep dnc nodeId slot) (rec0, st) :
                  Except String (Database × EvalSt)) with
              | .error e => .error e
              | .ok (rec2, st2) => .ok (value, rec2, st2)
  -- the type switch's default: scalars and opaque values pass through
  | .nil => .ok (.nil, rec0, st)
  | .int n => .ok (.int n, rec0, st)
  | .bool b => .ok (.bool b, rec0, st)
  | .bytes bs => .ok (.bytes bs, rec0, st)
  | .backend n => .ok (.backend n, rec0, st)
  | .fn g => .ok (.fn g, rec0, st)

/-- `(*Fixture).parseField` (fixture.go): invoke func-typed values, then
run the type switch.  Fuel bounds the descent (Go recursion is unbounded
and can in fact diverge on cyclic func-generated values). -/
def parseField (cfg : Config) (dnc : Bool) :
    Nat → String → String → String → Value → Int → Slot → Database →
    EvalSt → Except String (Value × Database × EvalSt)
  | 0, _, _, _, _, _, _, _, _ => .error "model: parseField fuel exhausted"
  | fuel + 1, table, key, field, value0, nodeId, slot, rec0, st =>
    (applyFnValue key value0).bind
      (fun value => parseFieldSwitch cfg dnc (parseField cfg dnc fuel)
        table key field value nodeId slot rec0 st)

/-- The per-record loop body of `parseTable` (the Go `for _, key :=
range keys` body, which closes over the table name, its options and the
effective sync flag): get the record's node, merge the table's default
values, mark it touched, chain a dependency on the previous record under
sync mode, and parse every field. -/
def parseTableKey (cfg : Config) (dnc : Bool) (fuel : Nat) (table : String)
    (tableOptions : Option TableOptions) (syncWrites : Bool)
    (acc : Option String × Table × Database × EvalSt) (key : String) :
    Except String (Option String × Table × Database × EvalSt) := do
  let (prev, databaseTable, rec, st) := acc
  let record := (lookupA databaseTable key).getD []
  let nodeKey : Label := (table, key)
  let r := getNode nodeKey st
  let node := r.1
  let st := r.2
  let record :=
    match tableOptions with
    | some opts => mergeDefaults opts.DefaultValues record
    | none => record
  let st :=
    if !dnc && !st.touchedNodes.contains nodeKey then
      { st with touchedNodes := st.touchedNodes ++ [nodeKey] }
    else st
  -- When writing synchronously, add the previous key (node)
  -- as a dependency to ensure it is processed before this one.
  let st :=
    match prev, syncWrites with
    | some prevKey, true =>
      let r2 := getNode (table, prevKey) st
      appendTo node r2.1 (appendFrom r2.1 node r2.2)
    | _, _ => st
  let fr ←
    record.foldlM
      (fun (acc2 : Record × Database × EvalSt) fv => do
        let (record, rec, st) := acc2
        let field := fv.1
        match parseField cfg dnc fuel table key field fv.2 node
            { table := table, key := key, field := field } rec st with
        | .error e => .error (recordErr table key field e)
        | .ok (v, rec, st) => .ok (setA record field v, rec, st))
      (record, rec, st)
  let (record, rec, st) := fr
  .ok (some key, setA databaseTable key record, rec, st)

/-- `(*Fixture).parseTable` (fixture.go): collect the record keys (sorted
when the effective write-mode is sync), then run the per-record body over
them.  Returns the updated table. -/
def parseTable (cfg : Config) (dnc : Bool) (fuel : Nat) (table : String)
    (databaseTable : Table) (rec : Database) (st : EvalSt) :
    Except String (Table × Database × EvalSt) := do
  let tableOptions := lookupA cfg.TableOptions table
  let syncWrites := syncWritesFor cfg table
  let keys := databaseTable.map (fun p => p.1)
  let keys := if syncWrites then sortStrings keys else keys
  let acc ←
    keys.foldlM (parseTableKey cfg dnc fuel table tableOptions syncWrites)
      (none, databaseTable, rec, st)
  .ok (acc.2.1, acc.2.2.1, acc.2.2.2)

/-- One level of `handleDatabase`: parse every table of `database`,
returning the updated database and the accumulated recursive database.
When `aliased` is true, `database` is `f.Database` itself (the top-level
`handleDatabase(f.Database)` call) and each table update is mirrored into
the fixture database in the state. -/
def handleDatabaseLevel (cfg : Config) (dnc : Bool) (fuel : Nat)
    (database : Database) (st : EvalSt) (aliased : Bool) :
    Except String (Database × Database × EvalSt) :=
  database.foldlM
    (fun (acc : Database × Database × EvalSt) entry => do
      let (db, rec, st) := acc
      match parseTable cfg dnc fuel entry.1 entry.2 rec st with
      | .error e => .error ("failed to parse table " ++ entry.1 ++ ": " ++ e)
      | .ok (table2, rec, st) =>
        let db := setA db entry.1 table2
        let st :=
          if aliased then
            { st with database := setA st.database entry.1 table2 }
          else st
        .ok (db, rec, st))
    (database, [], st)

/-- The merge of a processed recursive database into `f.Database` at the
end of `handleDatabase`: absent tables are added whole, otherwise the
records are copied in. -/
def mergeDatabase (main recursive : Database) : Database :=
  recursive.foldl
    (fun m entry =>
      match lookupA m entry.1 with
      | none => setA m entry.1 entry.2
      | some t =>
        setA m entry.1 (entry.2.foldl (fun t2 kv => setA t2 kv.1 kv.2) t))
    main

/-- `(*Fixture).handleDatabase` on a recursive database (a standalone
value): parse each table, recurse while new dependencies keep being
generated, and merge the processed recursive set into the fixture
database. -/
def handleDatabaseRec (cfg : Config) (dnc : Bool) :
    Nat → Database → EvalSt → Except String (Database × EvalSt)
  | 0, _, _ => .error "model: handleDatabase fuel exhausted"
  | fuel + 1, database, st => do
    let (database, recursiveDatabase, st) ←
      handleDatabaseLevel cfg dnc fuel database st false
    if recursiveDatabase.length > 0 then do
      let (recursiveDatabase, st) ←
        handleDatabaseRec cfg dnc fuel recursiveDatabase st
      .ok (database, { st with
        database := mergeDatabase st.database recursiveDatabase })
    else
      .ok (database, st)

/-- `(*Fixture).handleDatabase` applied to `f.Database` itself: the
argument aliases the fixture database, so table updates land there
directly. -/
def handleDatabaseMain (cfg : Config) (dnc : Bool) :
    Nat → EvalSt → Except String EvalSt
  | 0, _ => .error "model: handleDatabase fuel exhausted"
  | fuel + 1, st => do
    let (_, recursiveDatabase, st) ←
      handleDatabaseLevel cfg dnc fuel st.database st true
    if recursiveDatabase.length > 0 then do
      let (recursiveDatabase, st) ←
        handleDatabaseRec cfg dnc fuel recursiveDatabase st
      .ok { st with database := mergeDatabase st.database recursiveDatabase }
    else
      .ok st

/-- `(*Fixture).handleFiles`, restricted to the in-memory `Database`
path.  File and `Body` ingestion (TOML/YAML decoding, directory walks)
is external I/O, out of scope per spec §1; a fixture with neither yields
the `missing fixture body or file` error. -/
def handleFilesModel (cfg : Config) (dnc : Bool) (fuel : Nat) (st : EvalSt) :
    Except String EvalSt :=
  if st.database.length > 0 then handleDatabaseMain cfg dnc fuel st
  else .error "missing fixture body or file"

/-- Successor ids of node `u` (the `From` accessor feeding the sort). -/
def nodeSucc (nodes : List NodeData) (u : Int) : List Int :=
  match findNode nodes u with
  | some n => n.fromNodes
  | none => []

/-- Pick the first remaining node all of whose predecessors have been
emitted (no remaining node has an edge into it). -/
def topoPick (nodes : List NodeData) (remaining : List Int) : Option Int :=
  remaining.find?
    (fun v => remaining.all (fun u => !(nodeSucc nodes u).contains v))

/-- Modelled from the spec: `topo.Sort` (gonum, external) — a standard
topological sort over the `Nodes`/`From` accessors, emitting a node only
after all of its predecessors, failing on a cycle.  Fuel is the node
count. -/
def topoSortAux (nodes : List NodeData) :
    Nat → List Int → List Int → Except String (List Int)
  | 0, remaining, acc =>
    if remaining.isEmpty then .ok acc.reverse
    else .error "topological sort failed"
  | fuel + 1, remaining, acc =>
    if remaining.isEmpty then .ok acc.reverse
    else
      match topoPick nodes remaining with
      | none => .error "topological sort failed"
      | some v => topoSortAux nodes fuel (remaining.erase v) (v :: acc)

/-- Topologically sort the node set, dependencies first. -/
def topoSort (nodes : List NodeData) : Except String (List Int) :=
  topoSortAux nodes (nodes.map (fun n => n.id)).length
    (nodes.map (fun n => n.id)) []

/-- Observable writer-facing events of an `Apply` run: an `Insert` call
for a node's record, or the firing of a callback registered on a node. -/
inductive Event where
  | insert (label : Label)
  | callback (owner : Label) (dst : Slot)
deriving DecidableEq

/-- The writer contract `Insert` as the model sees it: receives table,
key and record, returns the record as mutated in place by the backend
(assigned ids etc.), or an error. -/
def WriterF := String → String → Record → Except String Record

/-- Fire the callbacks registered on a node, in registration order: each
reads its source field via `GetField` and writes the dependent's slot.
Returns the updated database (or the first error) and the events
emitted. -/
def fireCallbacks (db : Database) (owner : Label) :
    List CallbackData → (Except String Database) × List Event
  | [] => (.ok db, [])
  | cb :: rest =>
    let ev := Event.callback owner cb.dst
    match GetField db cb.src.1 cb.src.2.1 cb.src.2.2 with
    | .error e => (.error ("failed to execute callback: " ++ e), [ev])
    | .ok v =>
      let db := setSlot db cb.dst v
      let r := fireCallbacks db owner rest
      (r.1, ev :: r.2)

/-- The body of `Apply`'s write loop for one sorted node: run the
table's `BeforeWrite` hook, call the writer's `Insert` (recording the
event), then fire the node's callbacks. -/
def runNode (cfg : Config) (writer : WriterF) (db : Database)
    (n : NodeData) : (Except String Database) × List Event :=
  let table := n.label.1
  let key := n.label.2
  let record := (lookupA ((lookupA db table).getD []) key).getD []
  let hooked : Except String Record :=
    match lookupA cfg.TableOptions table with
    | some opts =>
      match opts.BeforeWrite with
      | some hook =>
        match hook record with
        | .error e => .error ("failed to execute BeforeWrite func: " ++ e)
        | .ok r => .ok r
      | none => .ok record
    | none => .ok record
  match hooked with
  | .error e => (.error e, [])
  | .ok record =>
    let db := setA db table (setA ((lookupA db table).getD []) key record)
    match writer table key record with
    | .error e =>
      (.error ("failed to insert record " ++ table ++ "." ++ key ++ ": "
        ++ e), [Event.insert n.label])
    | .ok record =>
      let db := setA db table (setA ((lookupA db table).getD []) key record)
      let r := fireCallbacks db n.label n.callbacks
      (r.1, Event.insert n.label :: r.2)

/-- `Apply`'s write loop over the topologically sorted node ids. -/
def writeLoop (cfg : Config) (writer : WriterF) :
    List Int → List NodeData → Database → (Except String Database) × List Event
  | [], _, db => (.ok db, [])
  | i :: rest, nodes, db =>
    match findNode nodes i with
    | none => (.error "model: sorted node not found", [])
    | some n =>
      let r := runNode cfg writer db n
      match r.1 with
      | .error e => (.error e, r.2)
      | .ok db =>
        let r2 := writeLoop cfg writer rest nodes db
        (r2.1, r.2 ++ r2.2)

/-- `Fixture` — the externally settable fields the model tracks, plus the
`applied` flag.  `File`/`Body`/`Dir` (file ingestion), `Context`,
`Logger`, `TemplateData` and `PrintJSON` are external I/O and are not
modelled. -/
structure Fixture where
  config : Option Config := none
  writer : Option WriterF := none
  database : Database := []
  doNotCreateDependencies : Bool := false
  applied : Bool := false

/-- `(*Fixture).Applied` -/
def Fixture.Applied (f : Fixture) : Bool := f.applied

/-- Result of the configuration/evaluation/sort/write pipeline run by
`Apply`, before the `applied` flag is folded in. -/
structure CoreOut where
  err : Option String := none
  trace : List Event := []
  db : Database := []
  st : EvalSt := { database := [] }
  success : Bool := false

/-- The pipeline of `(*Fixture).Apply`: default and init the config,
require a writer, evaluate the database, topologically sort, and run the
write loop.  On an evaluation or write failure the Go fixture retains the
partial in-place mutations; no claim observes them, and the model then
reports the pre-evaluation (resp. pre-write) database. -/
def applyCore (cfg0 : Option Config) (writer0 : Option WriterF)
    (db0 : Database) (dnc : Bool) (fuel : Nat) : CoreOut :=
  let cfg := (cfg0.getD {}).init
  match writer0 with
  | none => { err := some "missing writer", db := db0,
              st := { database := db0 } }
  | some writer =>
    let st : EvalSt := { database := db0 }
    match handleFilesModel cfg dnc fuel st with
    | .error e => { err := some e, db := db0, st := { database := db0 } }
    | .ok st =>
      match topoSort st.nodes with
      | .error e =>
        { err := some ("failed to sort records topologically: " ++ e)
          db := st.database, st := st }
      | .ok order =>
        let r := writeLoop cfg writer order st.nodes st.database
        match r.1 with
        | .error e =>
          { err := some e, trace := r.2, db := st.database, st := st }
        | .ok db =>
          { err := none, trace := r.2, db := db
            st := { st with database := db }, success := true }

/-- The observable outcome of one `Apply` call: the returned error (if
any), the writer-facing event trace, the fixture afterwards, and the
final evaluation state (graph and database). -/
structure ApplyOut where
  err : Option String
  trace : List Event
  fx : Fixture
  st : EvalSt

/-- `(*Fixture).Apply`.  `fuel` bounds the recursive-database iteration
and the value-descent depth (both unbounded in Go).  Note the `applied`
flag is set on success but never consulted. -/
def applyFixture (f : Fixture) (fuel : Nat) : ApplyOut :=
  let core := applyCore f.config f.writer f.database
    f.doNotCreateDependencies fuel
  { err := core.err
    trace := core.trace
    st := core.st
    fx := { f with
            config := some ((f.config.getD {}).init)
            database := core.db
            applied := if core.success then true else f.applied } }

/-! ## Association-list and node-set lemmas -/

lemma lookupA_ne_nil {κ α : Type} [DecidableEq κ] {m : List (κ × α)} {k : κ}
    {v : α} (h : lookupA m k = some v) : m.length > 0 := by
  cases m with
  | nil => simp [lookupA] at h
  | cons a l => simp

lemma lookupA_append {κ α : Type} [DecidableEq κ] (l1 l2 : List (κ × α))
    (k : κ) : lookupA (l1 ++ l2) k = (lookupA l1 k).or (lookupA l2 k) := by
  simp [lookupA, List.find?_append]
  cases List.find? (fun p => decide (p.1 = k)) l1 <;> simp [Option.or]

lemma lookupA_cons {κ α : Type} [DecidableEq κ] (a : κ × α)
    (l : List (κ × α)) (k : κ) :
    lookupA (a :: l) k = if a.1 = k then some a.2 else lookupA l k := by
  simp [lookupA, List.find?_cons]
  by_cases h : a.1 = k <;> simp [h]

lemma lookupA_nil {κ α : Type} [DecidableEq κ] (k : κ) :
    lookupA ([] : List (κ × α)) k = none := rfl

lemma lookupA_singleton_append {κ α : Type} [DecidableEq κ]
    (l : List (κ × α)) (k : κ) (d : κ × α) (h : lookupA l k = none) :
    lookupA (l ++ [d]) k = if d.1 = k then some d.2 else none := by
  rw [lookupA_append, h]
  simp [Option.or, lookupA_cons, lookupA_nil]

/-- The node-set invariant: pairwise distinct ids and labels, and every
id bounded by the sequence counter. -/
def NodesInv (st : EvalSt) : Prop :=
  st.nodes.Pairwise (fun a b => a.id ≠ b.id ∧ a.label ≠ b.label) ∧
  ∀ n ∈ st.nodes, n.id ≤ st.nodeSeq

lemma findNodeByLabel_label {nodes : List NodeData} {l : Label}
    {n : NodeData} (h : findNodeByLabel nodes l = some n) : n.label = l := by
  have := List.find?_some h
  simpa using this

lemma findNodeByLabel_mem {nodes : List NodeData} {l : Label}
    {n : NodeData} (h : findNodeByLabel nodes l = some n) : n ∈ nodes :=
  List.mem_of_find?_eq_some h

lemma getNode_inv {st : EvalSt} (l : Label) (h : NodesInv st) :
    NodesInv (getNode l st).2 := by
  unfold getNode
  cases hf : findNodeByLabel st.nodes l with
  | some n => exact h
  | none =>
    obtain ⟨hpw, hbound⟩ := h
    constructor
    · rw [List.pairwise_append]
      refine ⟨hpw, by simp, ?_⟩
      intro a ha b hb
      simp only [List.mem_singleton] at hb
      subst hb
      constructor
      · have := hbound a ha
        simp only []
        omega
      · intro hc
        have : ∀ n ∈ st.nodes, ¬ (n.label = l) := by
          intro n hn
          have := List.find?_eq_none.mp hf n hn
          simpa using this
        exact this a ha hc
    · intro n hn
      simp only [List.mem_append, List.mem_singleton] at hn
      rcases hn with hn | hn
      · have := hbound n hn
        simp only []
        omega
      · subst hn
        simp

lemma getNode_idem_lemma (st : EvalSt) (l : Label) :
    getNode l (getNode l st).2 = getNode l st := by
  unfold getNode
  cases hf : findNodeByLabel st.nodes l with
  | some n => simp [hf]
  | none =>
    simp only [hf]
    have : findNodeByLabel
        (st.nodes ++ [{ id := st.nodeSeq + 1, label := l }]) l =
        some { id := st.nodeSeq + 1, label := l } := by
      unfold findNodeByLabel at *
      rw [List.find?_append, hf]
      simp [Option.or]
    simp [this]

/-- Any sequence of `GetNode` calls, as `Apply`'s evaluation performs
them. -/
def requestNodes (labels : List Label) (st : EvalSt) : EvalSt :=
  labels.foldl (fun s l => (getNode l s).2) st

lemma requestNodes_inv (labels : List Label) (st : EvalSt)
    (h : NodesInv st) : NodesInv (requestNodes labels st) := by
  induction labels generalizing st with
  | nil => exact h
  | cons l ls ih => exact ih _ (getNode_inv l h)

lemma getNode_labels (l : Label) (st : EvalSt) (x : Label) :
    x ∈ (getNode l st).2.nodes.map (fun n => n.label) ↔
      x = l ∨ x ∈ st.nodes.map (fun n => n.label) := by
  unfold getNode
  cases hf : findNodeByLabel st.nodes l with
  | some n =>
    simp only []
    constructor
    · exact fun h => Or.inr h
    · rintro (rfl | h)
      · exact List.mem_map.mpr
          ⟨n, findNodeByLabel_mem hf, findNodeByLabel_label hf⟩
      · exact h
  | none =>
    simp only [List.map_append]
    simp [eq_comm, or_comm]

lemma requestNodes_labels (labels : List Label) (st : EvalSt) (x : Label) :
    x ∈ (requestNodes labels st).nodes.map (fun n => n.label) ↔
      x ∈ labels ∨ x ∈ st.nodes.map (fun n => n.label) := by
  induction labels generalizing st with
  | nil => simp [requestNodes]
  | cons l ls ih =>
    show x ∈ (requestNodes ls (getNode l st).2).nodes.map _ ↔ _
    rw [ih, getNode_labels]
    simp
    tauto

lemma nodesInv_label_nodup {st : EvalSt} (h : NodesInv st) :
    (st.nodes.map (fun n => n.label)).Nodup :=
  List.Pairwise.map _ (fun _ _ hab => hab.2) h.1

/-! ## C4 — reference resolution order -/

/-- C4: for every table and field, `GetReference` resolves in this order:
a present per-table entry with empty target is an explicit suppression —
no reference, and (per `parseField`) the field value is left verbatim; a
present per-table map lacking the field falls through to the global map
(deciding "no reference" when the global map yields nothing non-empty); a
non-empty entry in whichever map was consulted yields that table together
with the target table's primary-key name. -/
theorem getReference_resolution_order (c : Config) (table field : String) :
    (∀ opts, lookupA c.TableOptions table = some opts →
      lookupA opts.References field = some "" →
      c.GetReference table field = .ok ("", "")) ∧
    (∀ opts dnc fuel key s nodeId slot rec st,
      lookupA c.TableOptions table = some opts →
      lookupA opts.References field = some "" →
      s ≠ "" → s.toList.headD '=' ≠ '=' →
      parseField c dnc (fuel + 1) table key field (.str s) nodeId slot rec
        st = .ok (.str s, rec, st)) ∧
    (∀ opts t pk, lookupA c.TableOptions table = some opts →
      lookupA opts.References field = some t → t ≠ "" →
      c.GetPrimaryKeyName t = .ok pk →
      c.GetReference table field = .ok (t, pk)) ∧
    (∀ opts, lookupA c.TableOptions table = some opts →
      opts.References.length > 0 →
      lookupA opts.References field = none →
      ((lookupA c.References field).getD "" = "" →
        c.GetReference table field = .ok ("", "")) ∧
      (∀ t pk, lookupA c.References field = some t → t ≠ "" →
        c.GetPrimaryKeyName t = .ok pk →
        c.GetReference table field = .ok (t, pk))) := by
  refine ⟨?_, ?_, ?_, ?_⟩
  · intro opts hopts hsup
    have hlen := lookupA_ne_nil hsup
    simp [Config.GetReference, hopts, hsup, hlen]
  · intro opts dnc fuel key s nodeId slot rec st hopts hsup hs hc
    have href : c.GetReference table field = .ok ("", "") := by
      have hlen := lookupA_ne_nil hsup
      simp [Config.GetReference, hopts, hsup, hlen]
    rw [List.headD_eq_head?_getD] at hc
    simp only [String.toList] at hc
    rw [parseField]
    simp [applyFnValue, parseFieldSwitch, Except.bind, hs, href, hc]
  · intro opts t pk hopts hent ht hpk
    have hlen := lookupA_ne_nil hent
    simp [Config.GetReference, hopts, hent, hlen, ht, hpk]
  · intro opts hopts hlen habs
    constructor
    · intro hglob
      simp [Config.GetReference, hopts, habs, hlen, hglob]
    · intro t pk hent ht hpk
      simp [Config.GetReference, hopts, habs, hlen, hent, ht, hpk]

/-- The S4 configuration: a global reference for `fake_ref` and `zeta_id`,
suppressed (resp. absent) under table `theta`. -/
def cfgS4 : Config :=
  { PrimaryKeyName := "id"
    References := [("fake_ref", "fake"), ("zeta_id", "zeta")]
    TableOptions :=
      [("theta", { References := [("fake_ref", ""), ("beta_id", "beta")] })] }

theorem getReference_resolution_order_witness :
    cfgS4.GetReference "theta" "fake_ref" = .ok ("", "") ∧
    (parseField cfgS4 false 3 "theta" "1" "fake_ref" (.str "ref 1") 5
      { table := "theta", key := "1", field := "fake_ref" } []
      { database := [] } =
      .ok (.str "ref 1", [], { database := [] })) ∧
    cfgS4.GetReference "theta" "beta_id" = .ok ("beta", "id") ∧
    cfgS4.GetReference "theta" "zeta_id" = .ok ("zeta", "id") ∧
    cfgS4.GetReference "theta" "other" = .ok ("", "") := by
  refine ⟨?_, ?_, ?_, ?_, ?_⟩
  · exact (getReference_resolution_order cfgS4 "theta" "fake_ref").1 _
      rfl rfl
  · exact (getReference_resolution_order cfgS4 "theta" "fake_ref").2.1 _
      false 2 "1" "ref 1" 5 _ [] _ rfl rfl (by decide) (by decide)
  · exact (getReference_resolution_order cfgS4 "theta" "beta_id").2.2.1 _
      "beta" "id" rfl rfl (by decide) rfl
  · exact ((getReference_resolution_order cfgS4 "theta"
      "zeta_id").2.2.2 _ rfl (by decide) rfl).2 "zeta" "id" rfl
      (by decide) rfl
  · exact ((getReference_resolution_order cfgS4 "theta"
      "other").2.2.2 _ rfl (by decide) rfl).1 rfl

/-! ## C5 — command-name and line extraction -/

/-- Whitespace as recognized by the command-name scan loop. -/
def isCmdWS (c : Char) : Prop := c = ' ' ∨ c = '\n' ∨ c = '\t'

instance : DecidablePred isCmdWS := fun c => by
  unfold isCmdWS
  infer_instance

/-- The spec's reading of the line: the remainder strictly AFTER the
first whitespace character (for comparison with `cmdLineOf`, which is
what the code computes). -/
def lineAfterWhitespaceSpec (v : String) : String :=
  let r := scanCmdName v
  if r.2 > 0 then String.mk (v.toList.drop (r.2 + 1)) else ""

/-- C5 counterexample: on `"=ref alpha 1"` the code passes
`" alpha 1"` (from the whitespace character on) as the command line, not
the `"alpha 1"` the claim describes. -/
theorem cmdLine_keeps_whitespace_counterexample :
    cmdLineOf "=ref alpha 1" = " alpha 1" ∧
    lineAfterWhitespaceSpec "=ref alpha 1" = "alpha 1" ∧
    cmdLineOf "=ref alpha 1" ≠ lineAfterWhitespaceSpec "=ref alpha 1" := by
  refine ⟨rfl, rfl, ?_⟩
  decide

lemma cmdNameLoop_noWS (l : List Char) (i : Nat)
    (h : ∀ c ∈ l, ¬ isCmdWS c) : cmdNameLoop l i = (l, 0) := by
  induction l generalizing i with
  | nil => rfl
  | cons c rest ih =>
    have hc := h c (by simp)
    rw [cmdNameLoop]
    simp only [isCmdWS] at hc
    rw [if_neg hc, ih _ (fun d hd => h d (by simp [hd]))]

lemma cmdNameLoop_ws (pre : List Char) (c : Char) (suf : List Char) (i : Nat)
    (hpre : ∀ d ∈ pre, ¬ isCmdWS d) (hc : isCmdWS c) :
    cmdNameLoop (pre ++ c :: suf) i = (pre, i + pre.length) := by
  induction pre generalizing i with
  | nil =>
    simp only [List.nil_append, List.length_nil, Nat.add_zero]
    rw [cmdNameLoop]
    simp only [isCmdWS] at hc
    rw [if_pos hc]
  | cons d rest ih =>
    have hd := hpre d (by simp)
    simp only [isCmdWS] at hd
    rw [List.cons_append, cmdNameLoop, if_neg hd,
      ih _ (fun e he => hpre e (by simp [he]))]
    simp
    omega

/-- C5 amended: for a field string `=`-prefixed, the command name is the
run of bytes from index 1 up to (excluding) the first space, tab or
newline, and the line passed to the command is the remainder FROM (and
including) that whitespace character; with no whitespace the whole rest
is the name and the line is empty. -/
theorem cmdName_and_line_extraction (v : String) (rest : List Char)
    (hv : v.toList = '=' :: rest) :
    ((∀ c ∈ rest, ¬ isCmdWS c) →
      scanCmdName v = (String.mk rest, 0) ∧ cmdLineOf v = "") ∧
    (∀ pre c suf, rest = pre ++ c :: suf → (∀ d ∈ pre, ¬ isCmdWS d) →
      isCmdWS c →
      scanCmdName v = (String.mk pre, 1 + pre.length) ∧
      cmdLineOf v = String.mk (c :: suf)) := by
  simp only [String.toList] at hv
  constructor
  · intro h
    have h1 : scanCmdName v = (String.mk rest, 0) := by
      simp [scanCmdName, String.toList, hv, cmdNameLoop_noWS rest 1 h]
    exact ⟨h1, by simp [cmdLineOf, h1]⟩
  · intro pre c suf hrest hpre hc
    have h1 : scanCmdName v = (String.mk pre, 1 + pre.length) := by
      simp [scanCmdName, String.toList, hv, hrest,
        cmdNameLoop_ws pre c suf 1 hpre hc]
    refine ⟨h1, ?_⟩
    simp only [cmdLineOf, h1]
    have h2 : (1 + pre.length) > 0 := by omega
    rw [if_pos h2]
    have h3 : v.toList.drop (1 + pre.length) = c :: suf := by
      simp only [String.toList, hv, hrest]
      rw [Nat.add_comm, List.drop_succ_cons]
      exact List.drop_left pre (c :: suf)
    rw [h3]

theorem cmdName_and_line_extraction_witness :
    (scanCmdName "=uuidv4" = ("uuidv4", 0) ∧ cmdLineOf "=uuidv4" = "") ∧
    (scanCmdName "=ref alpha 1" = ("ref", 4) ∧
      cmdLineOf "=ref alpha 1" = " alpha 1") := by
  constructor
  · exact (cmdName_and_line_extraction "=uuidv4" "uuidv4".toList
      (by decide)).1 (by decide)
  · exact (cmdName_and_line_extraction "=ref alpha 1" "ref alpha 1".toList
      (by decide)).2 "ref".toList ' ' "alpha 1".toList (by decide)
      (by decide) (by decide)

/-! ## C6 — the ref command -/

/-- The field a `ref` without third argument defaults to: the target
table's per-table primary-key override when set, otherwise the global
primary-key name. -/
def defaultRefField (cfg : Config) (table : String) : String :=
  match lookupA cfg.TableOptions table with
  | some tableOptions =>
    if tableOptions.PrimaryKeyName ≠ "" then tableOptions.PrimaryKeyName
    else cfg.PrimaryKeyName
  | none => cfg.PrimaryKeyName

/-- C6: `ref` with positional arguments `<table> <key> [<field>]`
declares exactly one dependency labelled `(table, key)` — with `#`
replaced by the enclosing record's key — the field defaulting to the
target table's primary-key name, and registers the callback reading
`GetField(table, key, field)`; fewer than two arguments is an error. -/
theorem refCommand_spec (cfg : Config) (inp : CommandInput) (fresh : Nat)
    (args : List String) (kwargs : List (String × String))
    (hscan : inp.ScanLine = .ok (args, kwargs)) :
    (∀ table key fld, args = [table, key, fld] →
      refCommand cfg inp fresh = .ok ({ Dependencies := [{
        Label := (table, if key = "#" then inp.Key else key),
        Callback := some (table, (if key = "#" then inp.Key else key),
          fld) }] }, fresh)) ∧
    (∀ table key, args = [table, key] →
      refCommand cfg inp fresh = .ok ({ Dependencies := [{
        Label := (table, if key = "#" then inp.Key else key),
        Callback := some (table, (if key = "#" then inp.Key else key),
          defaultRefField cfg table) }] }, fresh)) ∧
    (args.length < 2 →
      refCommand cfg inp fresh = .error
        "expected at least 2 positional arguments") := by
  refine ⟨?_, ?_, ?_⟩
  · intro table key fld hargs
    subst hargs
    simp only [refCommand, hscan, Bind.bind, Except.bind]
    norm_num
  · intro table key hargs
    subst hargs
    simp only [refCommand, hscan, Bind.bind, Except.bind, defaultRefField]
    norm_num
  · intro hlt
    simp only [refCommand, hscan, Bind.bind, Except.bind]
    rw [if_pos hlt]

theorem refCommand_spec_witness :
    refCommand { PrimaryKeyName := "id" } { Key := "7", Line := " alpha #" }
        0 =
      .ok ({ Dependencies := [{ Label := ("alpha", "7"),
                                Callback := some ("alpha", "7", "id") }] },
        0) ∧
    refCommand { PrimaryKeyName := "id" }
        { Key := "7", Line := " beta 3 owner_id" } 0 =
      .ok ({ Dependencies := [{ Label := ("beta", "3"),
                                Callback := some ("beta", "3",
                                  "owner_id") }] }, 0) ∧
    refCommand { PrimaryKeyName := "id" } { Key := "7", Line := " alpha" }
        0 =
      .error "expected at least 2 positional arguments" := by
  refine ⟨?_, ?_, ?_⟩
  · exact (refCommand_spec { PrimaryKeyName := "id" }
      { Key := "7", Line := " alpha #" } 0 ["alpha", "#"] [] rfl).2.1
      "alpha" "#" rfl
  · exact (refCommand_spec { PrimaryKeyName := "id" }
      { Key := "7", Line := " beta 3 owner_id" } 0
      ["beta", "3", "owner_id"] [] rfl).1 "beta" "3" "owner_id" rfl
  · exact (refCommand_spec { PrimaryKeyName := "id" }
      { Key := "7", Line := " alpha" } 0 ["alpha"] [] rfl).2.2
      (by decide)

/-! ## C7 — default-value merge -/

/-- C7 helper: user-supplied fields survive the merge unchanged. -/
lemma mergeDefaults_present (defaults : Record) :
    ∀ (record : Record) (k : String), (lookupA record k).isSome →
      lookupA (mergeDefaults defaults record) k = lookupA record k := by
  induction defaults with
  | nil => intro record k _; rfl
  | cons d ds ih =>
    intro record k hk
    rw [mergeDefaults] at *
    simp only [List.foldl_cons]
    by_cases hd : (lookupA record d.1).isSome
    · rw [if_pos hd]; exact ih record k hk
    · rw [if_neg hd]
      have hkeep : lookupA (record ++ [d]) k = lookupA record k := by
        rw [lookupA_append]
        obtain ⟨v, hv⟩ := Option.isSome_iff_exists.mp hk
        simp [hv, Option.or]
      rw [← hkeep] at hk ⊢
      exact ih (record ++ [d]) k hk

/-- C7: the per-table default values, merged by `parseTable` before the
record's fields are evaluated, never overwrite a user-supplied field and
fill in each missing key. -/
theorem mergeDefaults_preserves_user_fields (defaults record : Record) :
    (∀ k, (lookupA record k).isSome →
      lookupA (mergeDefaults defaults record) k = lookupA record k) ∧
    (∀ k v, lookupA record k = none → lookupA defaults k = some v →
      lookupA (mergeDefaults defaults record) k = some v) := by
  constructor
  · exact fun k => mergeDefaults_present defaults record k
  · induction defaults generalizing record with
    | nil => intro k v _ hd; simp [lookupA_nil] at hd
    | cons d ds ih =>
      intro k v hk hd
      rw [lookupA_cons] at hd
      rw [mergeDefaults] at *
      simp only [List.foldl_cons]
      by_cases hdk : d.1 = k
      · rw [if_pos hdk] at hd
        have habs : ¬ (lookupA record d.1).isSome = true := by
          rw [hdk, hk]; simp
        rw [if_neg habs]
        have hpres : lookupA (record ++ [d]) k = some v := by
          rw [lookupA_singleton_append record k d hk, if_pos hdk, hd]
        rw [← hpres]
        exact mergeDefaults_present ds (record ++ [d]) k
          (by rw [hpres]; rfl)
      · rw [if_neg hdk] at hd
        by_cases hp : (lookupA record d.1).isSome
        · rw [if_pos hp]; exact ih record k v hk hd
        · rw [if_neg hp]
          have hk2 : lookupA (record ++ [d]) k = none := by
            rw [lookupA_singleton_append record k d hk, if_neg hdk]
          exact ih (record ++ [d]) k v hk2 hd

theorem mergeDefaults_preserves_user_fields_witness :
    lookupA (mergeDefaults [("a", .str "da"), ("b", .str "db")]
      [("b", .str "user")]) "b" =
      lookupA [(("b" : String), Value.str "user")] "b" ∧
    lookupA (mergeDefaults [("a", .str "da"), ("b", .str "db")]
      [("b", .str "user")]) "a" = some (.str "da") := by
  constructor
  · exact (mergeDefaults_preserves_user_fields
      [("a", .str "da"), ("b", .str "db")] [("b", .str "user")]).1 "b" rfl
  · exact (mergeDefaults_preserves_user_fields
      [("a", .str "da"), ("b", .str "db")] [("b", .str "user")]).2 "a"
      (.str "da") rfl rfl

/-! ## C9 — GetNode idempotence and unique indexing -/

/-- C9: `GetNode` is idempotent — a second call with the same label
returns the same node id and leaves the state unchanged; after any
sequence of requests, the number of nodes equals the number of distinct
labels ever requested, and distinct labels hold distinct ids. -/
theorem getNode_unique_index (labels : List Label) (db : Database) :
    (∀ st l, getNode l (getNode l st).2 = getNode l st) ∧
    ((requestNodes labels { database := db }).nodes.length =
      labels.toFinset.card) ∧
    (∀ l1 l2 n1 n2, l1 ≠ l2 →
      findNodeByLabel (requestNodes labels { database := db }).nodes l1
        = some n1 →
      findNodeByLabel (requestNodes labels { database := db }).nodes l2
        = some n2 →
      n1.id ≠ n2.id) := by
  have hinv : NodesInv (requestNodes labels { database := db }) :=
    requestNodes_inv labels _ (by constructor <;> simp)
  refine ⟨fun st l => getNode_idem_lemma st l, ?_, ?_⟩
  · have hnodup := nodesInv_label_nodup hinv
    have hlen : (requestNodes labels { database := db }).nodes.length =
        ((requestNodes labels { database := db }).nodes.map
          (fun n => n.label)).toFinset.card := by
      rw [List.toFinset_card_of_nodup hnodup, List.length_map]
    rw [hlen]
    congr 1
    apply Finset.ext
    intro x
    rw [List.mem_toFinset, List.mem_toFinset, requestNodes_labels]
    simp
  · intro l1 l2 n1 n2 hne h1 h2
    have hl1 := findNodeByLabel_label h1
    have hl2 := findNodeByLabel_label h2
    have hm1 := findNodeByLabel_mem h1
    have hm2 := findNodeByLabel_mem h2
    have hnn : n1 ≠ n2 := by
      intro hc
      subst hc
      exact hne (hl1 ▸ hl2 ▸ rfl)
    have hsym : Symmetric (fun (a b : NodeData) =>
        a.id ≠ b.id ∧ a.label ≠ b.label) := by
      intro a b hab
      exact ⟨hab.1.symm, hab.2.symm⟩
    exact (List.Pairwise.forall hsym hinv.1 hm1 hm2 hnn).1

theorem getNode_unique_index_witness :
    (requestNodes [("a", "1"), ("b", "2"), ("a", "1")]
      { database := [] }).nodes.length =
      ([(("a" : String), ("1" : String)), ("b", "2"),
        ("a", "1")] : List Label).toFinset.card ∧
    ((("a" : String), ("1" : String)) ≠ (("b" : String), ("2" : String)) ∧
      findNodeByLabel (requestNodes [("a", "1"), ("b", "2"), ("a", "1")]
        { database := [] }).nodes ("a", "1") =
        some { id := 1, label := ("a", "1") } ∧
      findNodeByLabel (requestNodes [("a", "1"), ("b", "2"), ("a", "1")]
        { database := [] }).nodes ("b", "2") =
        some { id := 2, label := ("b", "2") } ∧
      ({ id := 1, label := ("a", "1") } : NodeData).id ≠
        ({ id := 2, label := ("b", "2") } : NodeData).id) := by
  refine ⟨(getNode_unique_index [("a", "1"), ("b", "2"), ("a", "1")]
    []).2.1, by decide, rfl, rfl, ?_⟩
  exact (getNode_unique_index [("a", "1"), ("b", "2"), ("a", "1")]
    []).2.2 ("a", "1") ("b", "2") _ _ (by decide) rfl rfl

/-! ## C10 — HasEdgeBetween agrees with HasEdgeFromTo -/

/-- The pairing discipline the evaluator maintains: every dependency edge
is recorded in both endpoints' lists by the paired
`AppendFrom`/`AppendTo` calls, so `v` is among `u`'s successors exactly
when `u` is among `v`'s predecessors. -/
def WellPaired (nodes : List NodeData) : Prop :=
  ∀ u v na nb, findNode nodes u = some na → findNode nodes v = some nb →
    (v ∈ na.fromNodes ↔ u ∈ nb.toNodes)

/-- C10: on a well-paired graph, `HasEdgeBetween u v` coincides with
`HasEdgeFromTo u v` — true only for the u-to-v direction, not symmetric —
and the reversed-edge branch of `Edge` (`edgeBetween` answering
`(true, false)`) is never taken. -/
theorem hasEdgeBetween_eq_hasEdgeFromTo (nodes : List NodeData)
    (h : WellPaired nodes) (u v : Int) :
    HasEdgeBetween nodes u v = HasEdgeFromTo nodes u v ∧
    edgeBetween nodes u v ≠ (true, false) ∧
    EdgeEnds nodes u v =
      (if HasEdgeFromTo nodes u v = true then some (u, v) else none) := by
  unfold HasEdgeBetween HasEdgeFromTo EdgeEnds edgeBetween
  cases hu : findNode nodes u with
  | none => simp
  | some na =>
    cases hv : findNode nodes v with
    | none => simp
    | some nb =>
      by_cases h1 : v ∈ na.fromNodes
      · simp [h1]
      · have h2 : u ∉ nb.toNodes := fun hc => h1 ((h u v na nb hu hv).mpr hc)
        simp [h1, h2]

/-- A two-node graph with the single paired edge 1 → 2. -/
def exPairedNodes : List NodeData :=
  [{ id := 1, label := ("a", "1"), fromNodes := [2] },
   { id := 2, label := ("b", "1"), toNodes := [1] }]

theorem hasEdgeBetween_eq_hasEdgeFromTo_witness :
    HasEdgeBetween exPairedNodes 1 2 = HasEdgeFromTo exPairedNodes 1 2 ∧
    HasEdgeBetween exPairedNodes 2 1 = HasEdgeFromTo exPairedNodes 2 1 ∧
    HasEdgeBetween exPairedNodes 1 2 = true ∧
    HasEdgeBetween exPairedNodes 2 1 = false := by
  have hwp : WellPaired exPairedNodes := by
    intro u v na nb hu hv
    have hmu := List.mem_of_find?_eq_some hu
    have hidu : na.id = u := by
      have := List.find?_some hu
      simpa using this
    have hmv := List.mem_of_find?_eq_some hv
    have hidv : nb.id = v := by
      have := List.find?_some hv
      simpa using this
    subst hidu hidv
    simp only [exPairedNodes, List.mem_cons, List.mem_singleton,
      List.not_mem_nil, or_false] at hmu hmv
    rcases hmu with rfl | rfl <;> rcases hmv with rfl | rfl <;> decide
  exact ⟨(hasEdgeBetween_eq_hasEdgeFromTo exPairedNodes hwp 1 2).1,
    (hasEdgeBetween_eq_hasEdgeFromTo exPairedNodes hwp 2 1).1,
    by decide, by decide⟩

/-! ## Topological-sort lemmas -/

lemma topoPick_mem {nodes : List NodeData} {rem : List Int} {w : Int}
    (h : topoPick nodes rem = some w) : w ∈ rem :=
  List.mem_of_find?_eq_some h

lemma topoPick_free {nodes : List NodeData} {rem : List Int} {w : Int}
    (h : topoPick nodes rem = some w) :
    ∀ u ∈ rem, w ∉ nodeSucc nodes u := by
  unfold topoPick at h
  have hall0 := List.find?_some h
  have hall : rem.all (fun u => !(nodeSucc nodes u).contains w) = true :=
    hall0
  intro u hu hc
  have h2 := List.all_eq_true.mp hall u hu
  simp at h2
  exact h2 hc

/-- A successful `topoSortAux` run emits its accumulator followed by a
permutation of the remaining nodes, in which every edge points forward. -/
lemma topoSortAux_spec (nodes : List NodeData) :
    ∀ (fuel : Nat) (rem acc res : List Int),
      topoSortAux nodes fuel rem acc = .ok res →
      ∃ suffix, res = acc.reverse ++ suffix ∧ suffix.Perm rem ∧
        (∀ u v, u ∈ rem → v ∈ rem → v ∈ nodeSucc nodes u →
          [u, v].Sublist suffix) := by
  intro fuel
  induction fuel with
  | zero =>
    intro rem acc res h
    rw [topoSortAux] at h
    by_cases he : rem.isEmpty
    · rw [if_pos he] at h
      have hrem : rem = [] := List.isEmpty_iff.mp he
      subst hrem
      refine ⟨[], by simpa using h.symm, List.Perm.refl _, by simp⟩
    · rw [if_neg he] at h
      exact absurd h (by simp)
  | succ fuel ih =>
    intro rem acc res h
    rw [topoSortAux] at h
    by_cases he : rem.isEmpty
    · rw [if_pos he] at h
      have hrem : rem = [] := List.isEmpty_iff.mp he
      subst hrem
      refine ⟨[], by simpa using h.symm, List.Perm.refl _, by simp⟩
    · rw [if_neg he] at h
      cases hp : topoPick nodes rem with
      | none => rw [hp] at h; exact absurd h (by simp)
      | some w =>
        rw [hp] at h
        obtain ⟨suffix, hres, hperm, horder⟩ := ih _ _ _ h
        have hw : w ∈ rem := topoPick_mem hp
        have hfree := topoPick_free hp
        refine ⟨w :: suffix, ?_, ?_, ?_⟩
        · rw [hres]
          simp
        · exact (hperm.cons w).trans (List.perm_cons_erase hw).symm
        · intro u v hu hv hsucc
          by_cases hvw : v = w
          · subst hvw
            exact absurd hsucc (hfree u hu)
          · by_cases huw : u = w
            · subst huw
              have hvmem : v ∈ suffix :=
                hperm.mem_iff.mpr ((List.mem_erase_of_ne hvw).mpr hv)
              exact (List.singleton_sublist.mpr hvmem).cons₂ u
            · have hu2 : u ∈ rem.erase w := (List.mem_erase_of_ne huw).mpr hu
              have hv2 : v ∈ rem.erase w := (List.mem_erase_of_ne hvw).mpr hv
              exact (horder u v hu2 hv2 hsucc).cons w

/-- A cycle in the dependency graph, stated as a nonempty node set inside
which every node has an in-edge from the set (every directed cycle yields
such a set, and conversely such a finite set always contains a directed
cycle). -/
def HasCycle (nodes : List NodeData) : Prop :=
  ∃ c : List Int, c ≠ [] ∧ (∀ x ∈ c, x ∈ nodes.map (fun n => n.id)) ∧
    ∀ x ∈ c, ∃ u ∈ c, x ∈ nodeSucc nodes u

lemma topoSortAux_cycle (nodes : List NodeData) (c : List Int)
    (hc : c ≠ []) (hpred : ∀ x ∈ c, ∃ u ∈ c, x ∈ nodeSucc nodes u) :
    ∀ (fuel : Nat) (rem acc : List Int), (∀ x ∈ c, x ∈ rem) →
      topoSortAux nodes fuel rem acc = .error "topological sort failed" := by
  intro fuel
  induction fuel with
  | zero =>
    intro rem acc hsub
    rw [topoSortAux]
    have : ¬ rem.isEmpty := by
      obtain ⟨x, hx⟩ := List.exists_mem_of_ne_nil c hc
      have := hsub x hx
      intro he
      rw [List.isEmpty_iff.mp he] at this
      exact absurd this (List.not_mem_nil x)
    rw [if_neg this]
  | succ fuel ih =>
    intro rem acc hsub
    rw [topoSortAux]
    have hne : ¬ rem.isEmpty = true := by
      obtain ⟨x, hx⟩ := List.exists_mem_of_ne_nil c hc
      have := hsub x hx
      intro he
      rw [List.isEmpty_iff.mp he] at this
      exact absurd this (List.not_mem_nil x)
    rw [if_neg hne]
    cases hp : topoPick nodes rem with
    | none => rfl
    | some w =>
      have hwnc : w ∉ c := by
        intro hw
        obtain ⟨u, hu, hsucc⟩ := hpred w hw
        exact topoPick_free hp u (hsub u hu) hsucc
      apply ih
      intro x hx
      have hxw : x ≠ w := by
        intro he
        subst he
        exact hwnc hx
      exact (List.mem_erase_of_ne hxw).mpr (hsub x hx)

/-- A cyclic node set makes `topoSort` fail. -/
lemma topoSort_cycle (nodes : List NodeData) (h : HasCycle nodes) :
    topoSort nodes = .error "topological sort failed" := by
  obtain ⟨c, hc, hmem, hpred⟩ := h
  exact topoSortAux_cycle nodes c hc hpred _ _ [] hmem

/-! ## C2 — cycles abort Apply before any write -/

/-- C2: when evaluation succeeds but the dependency graph contains a
cycle, `Apply` returns the topological-sort error and performs no writer
`Insert` call (the trace is empty, so the store is never touched). -/
theorem cycle_rejected (f : Fixture) (fuel : Nat) (writer : WriterF)
    (st' : EvalSt) (hw : f.writer = some writer)
    (heval : handleFilesModel ((f.config.getD {}).init)
      f.doNotCreateDependencies fuel { database := f.database } = .ok st')
    (hcyc : HasCycle st'.nodes) :
    (applyFixture f fuel).err =
      some "failed to sort records topologically: topological sort failed" ∧
    (applyFixture f fuel).trace = [] := by
  have htopo := topoSort_cycle st'.nodes hcyc
  unfold applyFixture applyCore
  rw [hw]
  simp only [heval, htopo]
  simp

/-- The identity writer (backend assigns nothing). -/
def wId : WriterF := fun _ _ r => .ok r

/-- Scenario S6: two records each `=ref`-ing the other. -/
def fS6 : Fixture :=
  { writer := some wId
    database := [("x", [("1", [("y_id", .str "=ref y 1")])]),
                 ("y", [("1", [("x_id", .str "=ref x 1")])])] }

/-- The evaluation state S6 produces: two nodes referencing each other. -/
def stS6 : EvalSt :=
  { database := [("x", [("1", [("y_id", .str "=ref y 1")])]),
                 ("y", [("1", [("x_id", .str "=ref x 1")])])]
    nodes := [{ id := 1, label := ("x", "1"), fromNodes := [2],
                toNodes := [2],
                callbacks := [{ src := ("x", "1", "id"),
                                dst := { table := "y", key := "1",
                                         field := "x_id" } }] },
              { id := 2, label := ("y", "1"), fromNodes := [1],
                toNodes := [1],
                callbacks := [{ src := ("y", "1", "id"),
                                dst := { table := "x", key := "1",
                                         field := "y_id" } }] }]
    nodeSeq := 2
    touchedNodes := [("x", "1"), ("y", "1")]
    fresh := 0 }

theorem cycle_rejected_witness :
    (applyFixture fS6 10).err =
      some "failed to sort records topologically: topological sort failed" ∧
    (applyFixture fS6 10).trace = [] := by
  refine cycle_rejected fS6 10 wId stS6 rfl (by rfl) ⟨[1, 2], by decide,
    by decide, by decide⟩

/-! ## C3 — the applied flag is set but never checked -/

/-- A one-record fixture for exercising repeated Apply calls. -/
def fC3 : Fixture :=
  { writer := some wId
    database := [("a", [("1", [("x", .str "hello")])])] }

/-- C3 counterexample: after a successful `Apply` (which sets the
`applied` flag), a second `Apply` on the resulting fixture is NOT
rejected: it succeeds and re-runs the whole pipeline, inserting the
record again. -/
theorem apply_not_idempotent_once_counterexample :
    (applyFixture fC3 10).err = none ∧
    (applyFixture fC3 10).fx.Applied = true ∧
    (applyFixture ((applyFixture fC3 10).fx) 10).err = none ∧
    (applyFixture ((applyFixture fC3 10).fx) 10).trace =
      [Event.insert ("a", "1")] :=
  ⟨rfl, rfl, rfl, rfl⟩

/-- A run that reports no error reached the end of the pipeline. -/
lemma applyCore_err_none_success (cfg0 : Option Config)
    (writer0 : Option WriterF) (db0 : Database) (dnc : Bool) (fuel : Nat)
    (h : (applyCore cfg0 writer0 db0 dnc fuel).err = none) :
    (applyCore cfg0 writer0 db0 dnc fuel).success = true := by
  unfold applyCore at *
  cases writer0 with
  | none => simp at h
  | some w =>
    dsimp only at h ⊢
    cases hE1 : handleFilesModel ((cfg0.getD {}).init) dnc fuel
        { database := db0, nodes := [], nodeSeq := 0, touchedNodes := [],
          fresh := 0 } with
    | error e =>
      try rw [hE1] at h
      try dsimp only at h
      exact Option.noConfusion h
    | ok st =>
      try rw [hE1] at h
      try rw [hE1]
      dsimp only at h ⊢
      cases hE2 : topoSort st.nodes with
      | error e =>
        try rw [hE2] at h
        try dsimp only at h
        exact Option.noConfusion h
      | ok order =>
        try rw [hE2] at h
        try rw [hE2]
        dsimp only at h ⊢
        cases hE3 : (writeLoop ((cfg0.getD {}).init) w order st.nodes
            st.database).1 with
        | error e =>
          try rw [hE3] at h
          try dsimp only at h
          exact Option.noConfusion h
        | ok db =>
          try rw [hE3] at h
          try rw [hE3]
          try dsimp only at h ⊢
          try rfl

/-- C3 amended: `Apply` marks the fixture applied on success (observable
via `Applied()`), but never consults the flag — its error and its
writer-facing behavior are identical whatever the flag's prior value, so
a second call re-runs the pipeline instead of being rejected. -/
theorem apply_ignores_applied_flag (f : Fixture) (b : Bool) (fuel : Nat) :
    (applyFixture { f with applied := b } fuel).err =
      (applyFixture f fuel).err ∧
    (applyFixture { f with applied := b } fuel).trace =
      (applyFixture f fuel).trace ∧
    ((applyFixture f fuel).err = none →
      (applyFixture f fuel).fx.Applied = true) := by
  refine ⟨rfl, rfl, ?_⟩
  intro h
  have hs := applyCore_err_none_success f.config f.writer f.database
    f.doNotCreateDependencies fuel h
  unfold applyFixture Fixture.Applied
  simp [hs]

theorem apply_ignores_applied_flag_witness :
    (applyFixture { fC3 with applied := true } 10).err =
      (applyFixture fC3 10).err ∧
    (applyFixture { fC3 with applied := true } 10).trace =
      (applyFixture fC3 10).trace ∧
    (applyFixture fC3 10).fx.Applied = true := by
  have h := apply_ignores_applied_flag fC3 true 10
  exact ⟨h.1, h.2.1, h.2.2 rfl⟩


/-! ## Evaluation-state evolution -/

/-- How the evaluation state evolves: node-set wellformedness is
preserved, and existing nodes keep their label→id binding while their
successor lists only grow. -/
def Evolves (st st' : EvalSt) : Prop :=
  (NodesInv st → NodesInv st') ∧
  (∀ l n, findNodeByLabel st.nodes l = some n →
    ∃ n', findNodeByLabel st'.nodes l = some n' ∧ n'.id = n.id ∧
      ∀ x ∈ n.fromNodes, x ∈ n'.fromNodes)

lemma evolves_refl (st : EvalSt) : Evolves st st :=
  ⟨fun h => h, fun _ n h => ⟨n, h, rfl, fun _ hx => hx⟩⟩

lemma Evolves.trans {s1 s2 s3 : EvalSt} (h12 : Evolves s1 s2)
    (h23 : Evolves s2 s3) : Evolves s1 s3 := by
  refine ⟨fun h => h23.1 (h12.1 h), ?_⟩
  intro l n h1
  obtain ⟨n2, h2, hid2, hsub2⟩ := h12.2 l n h1
  obtain ⟨n3, h3, hid3, hsub3⟩ := h23.2 l n2 h2
  exact ⟨n3, h3, hid3.trans hid2, fun x hx => hsub3 x (hsub2 x hx)⟩

lemma evolves_same_nodes {st st' : EvalSt} (h1 : st'.nodes = st.nodes)
    (h2 : st'.nodeSeq = st.nodeSeq) : Evolves st st' := by
  refine ⟨?_, ?_⟩
  · intro hinv
    unfold NodesInv at *
    rw [h1, h2]
    exact hinv
  · intro l n h
    rw [h1]
    exact ⟨n, h, rfl, fun _ hx => hx⟩

lemma evolves_getNode (l : Label) (st : EvalSt) :
    Evolves st (getNode l st).2 := by
  refine ⟨getNode_inv l, ?_⟩
  intro l2 n h
  unfold getNode
  cases hf : findNodeByLabel st.nodes l with
  | some m => exact ⟨n, h, rfl, fun _ hx => hx⟩
  | none =>
    refine ⟨n, ?_, rfl, fun _ hx => hx⟩
    unfold findNodeByLabel at *
    rw [List.find?_append, h]
    rfl

lemma evolves_map (st : EvalSt) (g : NodeData → NodeData)
    (hid : ∀ n, (g n).id = n.id) (hlab : ∀ n, (g n).label = n.label)
    (hfrom : ∀ n, ∀ x ∈ n.fromNodes, x ∈ (g n).fromNodes) :
    Evolves st { st with nodes := st.nodes.map g } := by
  refine ⟨?_, ?_⟩
  · intro hinv
    obtain ⟨hpw, hbound⟩ := hinv
    constructor
    · refine List.Pairwise.map g ?_ hpw
      intro a b hab
      rw [hid, hid, hlab, hlab]
      exact hab
    · intro n hn
      obtain ⟨m, hm, rfl⟩ := List.mem_map.mp hn
      rw [hid]
      exact hbound m hm
  · intro l n h
    refine ⟨g n, ?_, hid n, hfrom n⟩
    unfold findNodeByLabel at *
    rw [List.find?_map]
    rw [show ((fun nd => decide (nd.label = l)) ∘ g)
        = (fun nd => decide (nd.label = l)) from ?_]
    · rw [h]
      rfl
    · funext nd
      simp [Function.comp, hlab]

lemma evolves_appendFrom (i other : Int) (st : EvalSt) :
    Evolves st (appendFrom i other st) := by
  unfold appendFrom
  apply evolves_map
  · intro n
    by_cases h : n.id = i <;> simp [h]
  · intro n
    by_cases h : n.id = i <;> simp [h]
  · intro n x hx
    by_cases h : n.id = i <;> simp [h, hx]

lemma evolves_appendTo (i other : Int) (st : EvalSt) :
    Evolves st (appendTo i other st) := by
  unfold appendTo
  apply evolves_map
  · intro n
    by_cases h : n.id = i <;> simp [h]
  · intro n
    by_cases h : n.id = i <;> simp [h]
  · intro n x hx
    by_cases h : n.id = i <;> simp [h, hx]

lemma evolves_appendCallback (i : Int) (cb : CallbackData) (st : EvalSt) :
    Evolves st (appendCallback i cb st) := by
  unfold appendCallback
  apply evolves_map
  · intro n
    by_cases h : n.id = i <;> simp [h]
  · intro n
    by_cases h : n.id = i <;> simp [h]
  · intro n x hx
    by_cases h : n.id = i <;> simp [h, hx]

lemma foldlM_evolves {α β : Type} (proj : β → EvalSt)
    (f : β → α → Except String β)
    (hf : ∀ b a b', f b a = .ok b' → Evolves (proj b) (proj b')) :
    ∀ (l : List α) (b b' : β), l.foldlM f b = .ok b' →
      Evolves (proj b) (proj b') := by
  intro l
  induction l with
  | nil =>
    intro b b' h
    have hb : b = b' := by
      simpa [List.foldlM, pure, Except.pure] using h
    subst hb
    exact evolves_refl _
  | cons a l ih =>
    intro b b' h
    rw [List.foldlM_cons] at h
    cases hfa : f b a with
    | error e => rw [hfa] at h; exact absurd h (by simp [Bind.bind, Except.bind])
    | ok b1 =>
      rw [hfa] at h
      simp only [Bind.bind, Except.bind] at h
      exact (hf b a b1 hfa).trans (ih b1 b' h)

lemma parseFieldDep_evolves (dnc : Bool) (nodeId : Int) (slot : Slot)
    (acc : Database × EvalSt) (dep : CommandDependency)
    (acc' : Database × EvalSt)
    (h : parseFieldDep dnc nodeId slot acc dep = .ok acc') :
    Evolves acc.2 acc'.2 := by
  unfold parseFieldDep at h
  obtain ⟨lbl, cb⟩ := dep
  cases cb with
  | none =>
    dsimp only at h
    have eX : Evolves acc.2
        (appendTo nodeId (getNode lbl acc.2).1
          (appendFrom (getNode lbl acc.2).1 nodeId (getNode lbl acc.2).2)) :=
      ((evolves_getNode _ _).trans (evolves_appendFrom _ _ _)).trans
        (evolves_appendTo _ _ _)
    split at h
    · cases h
      exact eX
    · split at h
      · split at h
        · cases h
          exact eX.trans (evolves_same_nodes rfl rfl)
        · cases h
          exact eX.trans (evolves_same_nodes rfl rfl)
      · cases h
        exact eX.trans (evolves_same_nodes rfl rfl)
  | some src =>
    dsimp only at h
    have eX : Evolves acc.2
        (appendTo nodeId (getNode lbl acc.2).1
          (appendFrom (getNode lbl acc.2).1 nodeId
            (appendCallback (getNode lbl acc.2).1
              { src := src, dst := slot } (getNode lbl acc.2).2))) :=
      (((evolves_getNode _ _).trans (evolves_appendCallback _ _ _)).trans
        (evolves_appendFrom _ _ _)).trans (evolves_appendTo _ _ _)
    split at h
    · cases h
      exact eX
    · split at h
      · split at h
        · cases h
          exact eX.trans (evolves_same_nodes rfl rfl)
        · cases h
          exact eX.trans (evolves_same_nodes rfl rfl)
      · cases h
        exact eX.trans (evolves_same_nodes rfl rfl)

lemma parseFieldSwitch_evolves (cfg : Config) (dnc : Bool)
    (recurse : String → String → String → Value → Int → Slot → Database →
      EvalSt → Except String (Value × Database × EvalSt))
    (hrec : ∀ table key field value nodeId slot rec st v rec' st',
      recurse table key field value nodeId slot rec st = .ok (v, rec', st')
      → Evolves st st')
    (table key field : String) (value : Value) (nodeId : Int) (slot : Slot)
    (rec0 : Database) (st : EvalSt) (v : Value) (rec' : Database)
    (st' : EvalSt)
    (h : parseFieldSwitch cfg dnc recurse table key field value nodeId slot
      rec0 st = .ok (v, rec', st')) :
    Evolves st st' := by
  cases value with
  | list xs =>
    rw [parseFieldSwitch] at h
    split at h
    · exact absurd h (by simp)
    · exact absurd h (by simp)
  | map m =>
    rw [parseFieldSwitch] at h
    split at h
    · exact absurd h (by simp)
    · rename_i x1 m2 rec2 st2 hfold
      cases h
      refine foldlM_evolves (fun acc => acc.2.2) _ ?_ m
        ([], rec0, st) (m2, rec', st') hfold
      intro b a b' hb
      split at hb
      · exact absurd hb (by simp)
      · rename_i x2 a2 rec3 st3 hpf
        cases hb
        exact hrec _ _ _ _ _ _ _ _ _ _ _ hpf
  | str s =>
    rw [parseFieldSwitch] at h
    by_cases hs : s = ""
    · rw [if_pos hs] at h
      cases h
      exact evolves_refl _
    · rw [if_neg hs] at h
      cases hrw : (if s.toList.headD '=' ≠ '=' then
          match cfg.GetReference table field with
          | .error e =>
            Except.error ("failed to get reference for " ++ table ++ "."
              ++ field ++ ": " ++ e)
          | .ok (refTable, _) =>
            if refTable ≠ "" then
              Except.ok (some ("=ref " ++ refTable ++ " " ++ s))
            else Except.ok none
        else Except.ok (some s)) with
      | error e =>
        rw [hrw] at h
        exact absurd h (by simp)
      | ok vOpt =>
        rw [hrw] at h
        cases vOpt with
        | none =>
          cases h
          exact evolves_refl _
        | some v2 =>
          dsimp only at h
          cases hcf : lookupA commands (scanCmdName v2).1 with
          | none =>
            rw [hcf] at h
            exact absurd h (by simp)
          | some cmdFunc =>
            rw [hcf] at h
            dsimp only at h
            cases hrun : cmdFunc cfg
                { Table := table, Key := key, Field := field
                  Line := if (scanCmdName v2).2 > 0 then
                      String.mk (v2.toList.drop (scanCmdName v2).2)
                    else "" } st.fresh with
            | error e =>
              rw [hrun] at h
              exact absurd h (by simp)
            | ok r2 =>
              rw [hrun] at h
              obtain ⟨cmdOut, fresh2⟩ := r2
              dsimp only at h
              by_cases hdeps : cmdOut.Dependencies.length = 0
              · rw [if_pos hdeps] at h
                cases h
                exact evolves_same_nodes rfl rfl
              · rw [if_neg hdeps] at h
                cases hfold : (cmdOut.Dependencies.foldlM
                    (parseFieldDep dnc nodeId slot)
                    (rec0, { st with fresh := fresh2 }) :
                    Except String (Database × EvalSt)) with
                | error e =>
                  rw [hfold] at h
                  exact absurd h (by simp)
                | ok r3 =>
                  rw [hfold] at h
                  obtain ⟨rec3, st3⟩ := r3
                  cases h
                  have e1 : Evolves st { st with fresh := fresh2 } :=
                    evolves_same_nodes rfl rfl
                  exact e1.trans (foldlM_evolves (fun acc => acc.2) _
                    (fun b a b' hb => parseFieldDep_evolves dnc nodeId
                      slot b a b' hb)
                    cmdOut.Dependencies
                    (rec0, { st with fresh := fresh2 })
                    (rec', st') hfold)
  | nil => rw [parseFieldSwitch] at h; cases h; exact evolves_refl _
  | int n => rw [parseFieldSwitch] at h; cases h; exact evolves_refl _
  | bool b => rw [parseFieldSwitch] at h; cases h; exact evolves_refl _
  | bytes bs => rw [parseFieldSwitch] at h; cases h; exact evolves_refl _
  | backend n => rw [parseFieldSwitch] at h; cases h; exact evolves_refl _
  | fn g => rw [parseFieldSwitch] at h; cases h; exact evolves_refl _

lemma parseField_evolves (cfg : Config) (dnc : Bool) :
    ∀ (fuel : Nat) (table key field : String) (value : Value)
      (nodeId : Int) (slot : Slot) (rec : Database) (st : EvalSt)
      (v : Value) (rec' : Database) (st' : EvalSt),
      parseField cfg dnc fuel table key field value nodeId slot rec st
        = .ok (v, rec', st') →
      Evolves st st' := by
  intro fuel
  induction fuel with
  | zero =>
    intro table key field value nodeId slot rec st v rec' st' h
    exact absurd h (by simp [parseField])
  | succ fuel ih =>
    intro table key field value nodeId slot rec st v rec' st' h
    rw [parseField] at h
    cases happ : applyFnValue key value with
    | error e =>
      rw [happ] at h
      exact absurd h (by simp [Except.bind])
    | ok value2 =>
      rw [happ] at h
      simp only [Except.bind] at h
      exact parseFieldSwitch_evolves cfg dnc _ ih table key field value2
        nodeId slot rec st v rec' st' h

lemma except_bind_ok {α β : Type} {x : Except String α}
    {f : α → Except String β} {b : β} (h : x.bind f = .ok b) :
    ∃ a, x = .ok a ∧ f a = .ok b := by
  cases x with
  | error e => exact absurd h (by simp [Except.bind])
  | ok a => exact ⟨a, rfl, by simpa [Except.bind] using h⟩

lemma evolves_touched (st : EvalSt) (c : Bool) (t : List Label) :
    Evolves st (if c then { st with touchedNodes := t } else st) := by
  cases c
  · exact evolves_refl st
  · exact evolves_same_nodes rfl rfl

lemma evolves_set_database (st : EvalSt) (c : Bool) (d : Database) :
    Evolves st (if c then { st with database := d } else st) := by
  cases c
  · exact evolves_refl st
  · exact evolves_same_nodes rfl rfl

lemma parseTableKey_evolves (cfg : Config) (dnc : Bool) (fuel : Nat)
    (table : String) (topts : Option TableOptions) (sw : Bool)
    (b : Option String × Table × Database × EvalSt) (a : String)
    (b2 : Option String × Table × Database × EvalSt)
    (hstep : parseTableKey cfg dnc fuel table topts sw b a = .ok b2) :
    Evolves b.2.2.2 b2.2.2.2 := by
  obtain ⟨prev, dbT, rec1, st1⟩ := b
  rw [parseTableKey.eq_def] at hstep
  try dsimp only at hstep ⊢
  try simp only [Bind.bind] at hstep
  obtain ⟨fr, hfr, hres2⟩ := except_bind_ok hstep
  obtain ⟨r3, rec3, st3⟩ := fr
  dsimp only at hres2
  cases hres2
  dsimp only
  refine Evolves.trans ?_ (foldlM_evolves
    (fun acc2 : Record × Database × EvalSt => acc2.2.2) _ ?_ _ _ _ hfr)
  · rcases prev with _ | pk
    · exact (evolves_getNode _ _).trans (evolves_touched _ _ _)
    · cases sw
      · exact (evolves_getNode _ _).trans (evolves_touched _ _ _)
      · exact Evolves.trans
          ((evolves_getNode _ _).trans (evolves_touched _ _ _))
          ((evolves_getNode _ _).trans
            ((evolves_appendFrom _ _ _).trans (evolves_appendTo _ _ _)))
  · intro c a2 c2 hstep2
    obtain ⟨record, rec4, st4⟩ := c
    dsimp only at hstep2 ⊢
    split at hstep2
    · exact absurd hstep2 (by simp)
    · rename_i x v5 rec5 st5 hpf
      cases hstep2
      exact parseField_evolves cfg dnc fuel _ _ _ _ _ _ _ _ _ _ _ hpf

lemma parseTable_evolves (cfg : Config) (dnc : Bool) (fuel : Nat)
    (table : String) (databaseTable : Table) (rec : Database) (st : EvalSt)
    (t' : Table) (rec' : Database) (st' : EvalSt)
    (h : parseTable cfg dnc fuel table databaseTable rec st
      = .ok (t', rec', st')) :
    Evolves st st' := by
  rw [parseTable] at h
  simp only [Bind.bind] at h
  obtain ⟨acc, hacc, hres⟩ := except_bind_ok h
  have hev : Evolves st acc.2.2.2 :=
    foldlM_evolves
      (fun acc : Option String × Table × Database × EvalSt => acc.2.2.2)
      _ (fun b a b2 hstep =>
          parseTableKey_evolves cfg dnc fuel table _ _ b a b2 hstep)
      _ _ _ hacc
  simp only [Except.ok.injEq, Prod.mk.injEq] at hres
  obtain ⟨h1, h2, h3⟩ := hres
  exact h3 ▸ hev

lemma handleDatabaseLevel_evolves (cfg : Config) (dnc : Bool) (fuel : Nat)
    (database : Database) (st : EvalSt) (aliased : Bool)
    (db' rec' : Database) (st' : EvalSt)
    (h : handleDatabaseLevel cfg dnc fuel database st aliased
      = .ok (db', rec', st')) :
    Evolves st st' := by
  unfold handleDatabaseLevel at h
  refine foldlM_evolves
    (fun acc : Database × Database × EvalSt => acc.2.2) _ ?_ _ _ _ h
  intro b a b2 hb
  obtain ⟨db1, rec1, st1⟩ := b
  dsimp only at hb ⊢
  split at hb
  · exact absurd hb (by simp)
  · rename_i x t2 rec2 st2 hpt
    cases hb
    exact (parseTable_evolves cfg dnc fuel _ _ _ _ _ _ _ hpt).trans
      (evolves_set_database _ _ _)

lemma handleDatabaseRec_evolves (cfg : Config) (dnc : Bool) :
    ∀ (fuel : Nat) (database : Database) (st : EvalSt)
      (db' : Database) (st' : EvalSt),
      handleDatabaseRec cfg dnc fuel database st = .ok (db', st') →
      Evolves st st' := by
  intro fuel
  induction fuel with
  | zero =>
    intro db st db' st' h
    exact absurd h (by simp [handleDatabaseRec])
  | succ fuel ih =>
    intro db st db' st' h
    rw [handleDatabaseRec] at h
    simp only [Bind.bind] at h
    obtain ⟨⟨db1, rec1, st1⟩, h1, h2⟩ := except_bind_ok h
    have e1 : Evolves st st1 :=
      handleDatabaseLevel_evolves cfg dnc fuel db st false db1 rec1 st1 h1
    dsimp only at h2
    split at h2
    · obtain ⟨⟨rd2, st2⟩, h3, h4⟩ := except_bind_ok h2
      have e2 : Evolves st1 st2 := ih rec1 st1 rd2 st2 h3
      dsimp only at h4
      cases h4
      exact e1.trans (e2.trans (evolves_same_nodes rfl rfl))
    · cases h2
      exact e1

lemma handleDatabaseMain_evolves (cfg : Config) (dnc : Bool) (fuel : Nat)
    (st st' : EvalSt) (h : handleDatabaseMain cfg dnc fuel st = .ok st') :
    Evolves st st' := by
  cases fuel with
  | zero => exact absurd h (by simp [handleDatabaseMain])
  | succ fuel =>
    rw [handleDatabaseMain] at h
    simp only [Bind.bind] at h
    obtain ⟨⟨db1, rec1, st1⟩, h1, h2⟩ := except_bind_ok h
    have e1 : Evolves st st1 :=
      handleDatabaseLevel_evolves cfg dnc fuel st.database st true
        db1 rec1 st1 h1
    dsimp only at h2
    split at h2
    · obtain ⟨⟨rd2, st2⟩, h3, h4⟩ := except_bind_ok h2
      have e2 : Evolves st1 st2 :=
        handleDatabaseRec_evolves cfg dnc fuel rec1 st1 rd2 st2 h3
      dsimp only at h4
      cases h4
      exact e1.trans (e2.trans (evolves_same_nodes rfl rfl))
    · cases h2
      exact e1

lemma handleFilesModel_evolves (cfg : Config) (dnc : Bool) (fuel : Nat)
    (st st' : EvalSt) (h : handleFilesModel cfg dnc fuel st = .ok st') :
    Evolves st st' := by
  unfold handleFilesModel at h
  split at h
  · exact handleDatabaseMain_evolves cfg dnc fuel st st' h
  · exact absurd h (by simp)

lemma nodesInv_init (db : Database) : NodesInv { database := db } :=
  ⟨List.Pairwise.nil, fun n hn => absurd hn (List.not_mem_nil n)⟩

/-! ## Writer-event trace structure -/

/-- The callback events a node with the given label and callback list
emits on a fully successful run. -/
def cbEvents (owner : Label) (cbs : List CallbackData) : List Event :=
  cbs.map (fun cb => Event.callback owner cb.dst)

/-- All events one node emits on a fully successful run: its `Insert`
followed by its callbacks in registration order. -/
def nodeEvents (n : NodeData) : List Event :=
  Event.insert n.label :: cbEvents n.label n.callbacks

/-- The event block of the node with id `i`. -/
def blockOf (nodes : List NodeData) (i : Int) : List Event :=
  match findNode nodes i with
  | some n => nodeEvents n
  | none => []

/-- The full trace of a successful write loop over the sorted ids. -/
def traceOf (nodes : List NodeData) : List Int → List Event
  | [] => []
  | i :: rest => blockOf nodes i ++ traceOf nodes rest

/-- Matches the callback events owned by label `l`. -/
def ownerCb (l : Label) : Event → Bool := fun e =>
  match e with
  | Event.callback o _ => decide (o = l)
  | _ => false

/-- Matches the insert event of label `l`. -/
def isInsert (l : Label) : Event → Bool := fun e =>
  decide (e = Event.insert l)

lemma findNode_of_mem {nodes : List NodeData} {n : NodeData}
    (hpw : nodes.Pairwise (fun a b => a.id ≠ b.id ∧ a.label ≠ b.label))
    (hn : n ∈ nodes) : findNode nodes n.id = some n := by
  induction nodes with
  | nil => exact absurd hn (List.not_mem_nil n)
  | cons a l ih =>
    rw [List.pairwise_cons] at hpw
    unfold findNode
    rcases List.mem_cons.mp hn with rfl | hmem
    · simp
    · have hne : a.id ≠ n.id := (hpw.1 n hmem).1
      rw [List.find?_cons_of_neg]
      · exact ih hpw.2 hmem
      · simp [hne]

lemma nodesInv_id_nodup {st : EvalSt} (h : NodesInv st) :
    (st.nodes.map (fun n => n.id)).Nodup :=
  List.Pairwise.map _ (fun _ _ hab => hab.1) h.1

lemma fireCallbacks_ok_events (owner : Label) :
    ∀ (cbs : List CallbackData) (db db' : Database),
      (fireCallbacks db owner cbs).1 = .ok db' →
      (fireCallbacks db owner cbs).2 = cbEvents owner cbs := by
  intro cbs
  induction cbs with
  | nil => intro db db' h; rfl
  | cons cb rest ih =>
    intro db db' h
    rw [fireCallbacks] at h ⊢
    cases hg : GetField db cb.src.1 cb.src.2.1 cb.src.2.2 with
    | error e =>
      try rw [hg] at h
      exact absurd h (by simp)
    | ok v =>
      try rw [hg] at h
      try rw [hg]
      dsimp only at h ⊢
      simp only [cbEvents, List.map_cons]
      exact congrArg _ (ih _ _ h)

lemma runNode_ok_events (cfg : Config) (w : WriterF) (db : Database)
    (n : NodeData) (db' : Database) (evs : List Event)
    (h : runNode cfg w db n = (.ok db', evs)) :
    evs = nodeEvents n := by
  unfold runNode at h
  try dsimp only at h
  split at h
  · rename_i e hbw
    simp at h
  · rename_i record2 hbw
    try dsimp only at h
    split at h
    · rename_i e hw
      simp at h
    · rename_i record3 hw
      try dsimp only at h
      injection h with h1 h2
      subst h2
      simp only [nodeEvents]
      exact congrArg _ (fireCallbacks_ok_events _ _ _ _ h1)

lemma writeLoop_ok_trace (cfg : Config) (w : WriterF) :
    ∀ (order : List Int) (nodes : List NodeData) (db db' : Database),
      (writeLoop cfg w order nodes db).1 = .ok db' →
      (writeLoop cfg w order nodes db).2 = traceOf nodes order := by
  intro order
  induction order with
  | nil => intro nodes db db' h; rfl
  | cons i rest ih =>
    intro nodes db db' h
    rw [writeLoop] at h ⊢
    rw [traceOf]
    cases hf : findNode nodes i with
    | none =>
      rw [hf] at h
      exact absurd h (by simp)
    | some n =>
      try rw [hf] at h
      try rw [hf]
      try dsimp only at h
      try dsimp only
      unfold blockOf
      rw [hf]
      cases hrn : runNode cfg w db n with
      | mk r1 r2 =>
        try rw [hrn] at h
        try rw [hrn]
        try dsimp only at h
        try dsimp only
        cases r1 with
        | error e => exact absurd h (by simp)
        | ok db2 =>
          try dsimp only at h
          try dsimp only
          rw [runNode_ok_events cfg w db n db2 r2 hrn,
            ih nodes db2 db' h]

lemma sublist_pair_split {x y : Int} :
    ∀ {l : List Int}, [x, y].Sublist l →
      ∃ l1 l2 l3, l = l1 ++ x :: l2 ++ y :: l3 := by
  intro l
  induction l with
  | nil => intro h; cases h
  | cons a l ih =>
    intro h
    cases h
    case cons h2 =>
      obtain ⟨l1, l2, l3, rfl⟩ := ih h2
      exact ⟨a :: l1, l2, l3, rfl⟩
    case cons₂ h2 =>
      have hy : y ∈ l := List.singleton_sublist.mp h2
      obtain ⟨l2, l3, rfl⟩ := List.append_of_mem hy
      exact ⟨[], l2, l3, rfl⟩

lemma traceOf_append (nodes : List NodeData) :
    ∀ (o1 o2 : List Int),
      traceOf nodes (o1 ++ o2) = traceOf nodes o1 ++ traceOf nodes o2 := by
  intro o1 o2
  induction o1 with
  | nil => rfl
  | cons i rest ih =>
    rw [List.cons_append, traceOf, traceOf, ih, List.append_assoc]

lemma traceOf_countP (nodes : List NodeData) (p : Event → Bool) :
    ∀ order : List Int,
      (traceOf nodes order).countP p
        = (order.map (fun i => (blockOf nodes i).countP p)).sum := by
  intro order
  induction order with
  | nil => rfl
  | cons i rest ih =>
    simp only [traceOf, List.countP_append, List.map_cons, List.sum_cons, ih]

lemma sum_single_of_nodup_labels (nb : NodeData) (F : NodeData → Nat) :
    ∀ (nodes : List NodeData),
      (nodes.map (fun n => n.label)).Nodup → nb ∈ nodes →
      (nodes.map (fun m => if m.label = nb.label then F m else 0)).sum
        = F nb := by
  intro nodes
  induction nodes with
  | nil => intro _ hmem; exact absurd hmem (List.not_mem_nil nb)
  | cons a t ih =>
    intro hnd hmem
    simp only [List.map_cons, List.nodup_cons] at hnd
    rcases List.mem_cons.mp hmem with rfl | hm
    · simp only [List.map_cons, List.sum_cons, if_pos rfl]
      have hz : (t.map fun m => if m.label = nb.label then F m else 0)
          = t.map fun _ => 0 := by
        apply List.map_congr_left
        intro m hm2
        rw [if_neg]
        intro hlab
        exact hnd.1 (hlab ▸ List.mem_map.mpr ⟨m, hm2, rfl⟩)
      rw [hz]
      simp
    · have hane : a.label ≠ nb.label := by
        intro he
        exact hnd.1 (he ▸ List.mem_map.mpr ⟨nb, hm, rfl⟩)
      simp only [List.map_cons, List.sum_cons, if_neg hane, ih hnd.2 hm,
        Nat.zero_add]

lemma nodeEvents_countP_ins (m : NodeData) (l : Label) :
    (nodeEvents m).countP (isInsert l)
      = if m.label = l then 1 else 0 := by
  unfold nodeEvents isInsert
  rw [List.countP_cons]
  have hcb : (cbEvents m.label m.callbacks).countP
      (fun e => decide (e = Event.insert l)) = 0 := by
    rw [List.countP_eq_zero]
    intro e he
    simp only [cbEvents, List.mem_map] at he
    obtain ⟨cb, _, rfl⟩ := he
    simp
  rw [hcb]
  by_cases hml : m.label = l <;> simp [hml]

lemma nodeEvents_countP_cb (m : NodeData) (l : Label) :
    (nodeEvents m).countP (ownerCb l)
      = if m.label = l then m.callbacks.length else 0 := by
  unfold nodeEvents
  rw [List.countP_cons]
  have h0 : ownerCb l (Event.insert m.label) = false := rfl
  rw [h0]
  have hcb : (cbEvents m.label m.callbacks).countP (ownerCb l)
      = if m.label = l then m.callbacks.length else 0 := by
    unfold cbEvents
    rw [List.countP_map]
    by_cases hml : m.label = l
    · rw [if_pos hml]
      have : ((ownerCb l) ∘ fun cb : CallbackData => Event.callback m.label cb.dst)
          = fun _ => true := by
        funext cb
        simp [ownerCb, Function.comp, hml]
      rw [this]
      simp
    · rw [if_neg hml]
      have : ((ownerCb l) ∘ fun cb : CallbackData => Event.callback m.label cb.dst)
          = fun _ => false := by
        funext cb
        simp [ownerCb, Function.comp, hml]
      rw [this]
      simp
  rw [hcb]
  simp

lemma trace_countP_total (st1 : EvalSt) (hinv : NodesInv st1)
    (order : List Int) (hperm : order.Perm (st1.nodes.map (fun n => n.id)))
    (p : Event → Bool) :
    (traceOf st1.nodes order).countP p
      = (st1.nodes.map (fun m => (nodeEvents m).countP p)).sum := by
  rw [traceOf_countP]
  have hsum := (hperm.map (fun i => (blockOf st1.nodes i).countP p)).sum_eq
  rw [hsum, List.map_map]
  congr 1
  apply List.map_congr_left
  intro m hm
  have hfind : findNode st1.nodes m.id = some m := findNode_of_mem hinv.1 hm
  simp [Function.comp, blockOf, hfind]

lemma applyCore_success_struct (cfg0 : Option Config)
    (writer0 : Option WriterF) (db0 : Database) (dnc : Bool) (fuel : Nat)
    (h : (applyCore cfg0 writer0 db0 dnc fuel).err = none) :
    ∃ w st1 order db',
      writer0 = some w ∧
      handleFilesModel ((cfg0.getD {}).init) dnc fuel
        { database := db0, nodes := [], nodeSeq := 0, touchedNodes := [],
          fresh := 0 } = .ok st1 ∧
      topoSort st1.nodes = .ok order ∧
      (writeLoop ((cfg0.getD {}).init) w order st1.nodes st1.database).1
        = .ok db' ∧
      (applyCore cfg0 writer0 db0 dnc fuel).trace
        = (writeLoop ((cfg0.getD {}).init) w order st1.nodes
            st1.database).2 ∧
      (applyCore cfg0 writer0 db0 dnc fuel).st
        = { st1 with database := db' } := by
  unfold applyCore at *
  cases writer0 with
  | none => simp at h
  | some w =>
    dsimp only at h ⊢
    cases hE1 : handleFilesModel ((cfg0.getD {}).init) dnc fuel
        { database := db0, nodes := [], nodeSeq := 0, touchedNodes := [],
          fresh := 0 } with
    | error e =>
      try rw [hE1] at h
      try dsimp only at h
      exact Option.noConfusion h
    | ok st =>
      try rw [hE1] at h
      try rw [hE1]
      dsimp only at h ⊢
      cases hE2 : topoSort st.nodes with
      | error e =>
        try rw [hE2] at h
        try dsimp only at h
        exact Option.noConfusion h
      | ok order =>
        try rw [hE2] at h
        try rw [hE2]
        dsimp only at h ⊢
        cases hE3 : (writeLoop ((cfg0.getD {}).init) w order st.nodes
            st.database).1 with
        | error e =>
          try rw [hE3] at h
          try dsimp only at h
          exact Option.noConfusion h
        | ok db2 =>
          try rw [hE3] at h
          try rw [hE3]
          dsimp only at h ⊢
          exact ⟨w, st, order, db2, rfl, rfl, hE2, hE3, rfl, rfl⟩

lemma edge_insert_before (f : Fixture) (fuel : Nat) (na nb : NodeData)
    (hok : (applyFixture f fuel).err = none)
    (hna : na ∈ (applyFixture f fuel).st.nodes)
    (hnb : nb ∈ (applyFixture f fuel).st.nodes)
    (hedge : na.id ∈ nb.fromNodes) :
    ∃ t1 t2 t3,
      (applyFixture f fuel).trace
        = t1 ++ Event.insert nb.label ::
            (t2 ++ Event.insert na.label :: t3) ∧
      (applyFixture f fuel).trace.countP (isInsert nb.label) = 1 ∧
      (applyFixture f fuel).trace.countP (isInsert na.label) = 1 ∧
      t2.countP (ownerCb nb.label) = nb.callbacks.length ∧
      (applyFixture f fuel).trace.countP (ownerCb nb.label)
        = nb.callbacks.length := by
  have hok' : (applyCore f.config f.writer f.database
      f.doNotCreateDependencies fuel).err = none := hok
  obtain ⟨w, st1, order, db', hw, hH, hT, hW1, htr, hst⟩ :=
    applyCore_success_struct f.config f.writer f.database
      f.doNotCreateDependencies fuel hok'
  have htr' : (applyFixture f fuel).trace
      = (writeLoop ((f.config.getD {}).init) w order st1.nodes
          st1.database).2 := htr
  have hst' : (applyFixture f fuel).st = { st1 with database := db' } := hst
  have hnodes : (applyFixture f fuel).st.nodes = st1.nodes := by rw [hst']
  rw [hnodes] at hna hnb
  have hEv := handleFilesModel_evolves ((f.config.getD {}).init)
    f.doNotCreateDependencies fuel _ st1 hH
  have hinv : NodesInv st1 := hEv.1 (nodesInv_init f.database)
  have hT' : topoSortAux st1.nodes
      (st1.nodes.map (fun n => n.id)).length
      (st1.nodes.map (fun n => n.id)) [] = .ok order := hT
  obtain ⟨suffix, hres, hperm, hord⟩ := topoSortAux_spec st1.nodes _ _ _ _ hT'
  have hsuf : order = suffix := by simpa using hres
  subst hsuf
  have hfind : findNode st1.nodes nb.id = some nb := findNode_of_mem hinv.1 hnb
  have hfind2 : findNode st1.nodes na.id = some na := findNode_of_mem hinv.1 hna
  have hsucc : na.id ∈ nodeSucc st1.nodes nb.id := by
    unfold nodeSucc
    rw [hfind]
    exact hedge
  have hmem1 : nb.id ∈ st1.nodes.map (fun n => n.id) :=
    List.mem_map.mpr ⟨nb, hnb, rfl⟩
  have hmem2 : na.id ∈ st1.nodes.map (fun n => n.id) :=
    List.mem_map.mpr ⟨na, hna, rfl⟩
  have hsub : [nb.id, na.id].Sublist order := hord nb.id na.id hmem1 hmem2 hsucc
  obtain ⟨o1, o2, o3, horder⟩ := sublist_pair_split hsub
  have htrace : (applyFixture f fuel).trace = traceOf st1.nodes order := by
    rw [htr']
    exact writeLoop_ok_trace _ w order st1.nodes st1.database db' hW1
  have hNodup : order.Nodup := hperm.nodup_iff.mpr (nodesInv_id_nodup hinv)
  have hpairnd : [nb.id, na.id].Nodup := hNodup.sublist hsub
  have hidne : nb.id ≠ na.id := by
    simp [List.nodup_cons] at hpairnd
    exact hpairnd
  have hnane : na ≠ nb := fun he => hidne (congrArg NodeData.id he.symm)
  have hsymm : Symmetric
      (fun a b : NodeData => a.id ≠ b.id ∧ a.label ≠ b.label) :=
    fun a b hab => ⟨Ne.symm hab.1, Ne.symm hab.2⟩
  have hlabne : na.label ≠ nb.label :=
    (List.Pairwise.forall hsymm hinv.1 hna hnb hnane).2
  have hcnt1 : (traceOf st1.nodes order).countP (isInsert nb.label) = 1 := by
    rw [trace_countP_total st1 hinv order hperm]
    calc (st1.nodes.map
          (fun m => (nodeEvents m).countP (isInsert nb.label))).sum
        = (st1.nodes.map
            (fun m => if m.label = nb.label then 1 else 0)).sum := by
          exact congrArg List.sum (List.map_congr_left
            (fun m _ => nodeEvents_countP_ins m nb.label))
      _ = 1 := sum_single_of_nodup_labels nb (fun _ => 1) st1.nodes
            (nodesInv_label_nodup hinv) hnb
  have hcnt2 : (traceOf st1.nodes order).countP (isInsert na.label) = 1 := by
    rw [trace_countP_total st1 hinv order hperm]
    calc (st1.nodes.map
          (fun m => (nodeEvents m).countP (isInsert na.label))).sum
        = (st1.nodes.map
            (fun m => if m.label = na.label then 1 else 0)).sum := by
          exact congrArg List.sum (List.map_congr_left
            (fun m _ => nodeEvents_countP_ins m na.label))
      _ = 1 := sum_single_of_nodup_labels na (fun _ => 1) st1.nodes
            (nodesInv_label_nodup hinv) hna
  have hcnt3 : (traceOf st1.nodes order).countP (ownerCb nb.label)
      = nb.callbacks.length := by
    rw [trace_countP_total st1 hinv order hperm]
    calc (st1.nodes.map
          (fun m => (nodeEvents m).countP (ownerCb nb.label))).sum
        = (st1.nodes.map
            (fun m => if m.label = nb.label
              then m.callbacks.length else 0)).sum := by
          exact congrArg List.sum (List.map_congr_left
            (fun m _ => nodeEvents_countP_cb m nb.label))
      _ = nb.callbacks.length := sum_single_of_nodup_labels nb
            (fun m => m.callbacks.length) st1.nodes
            (nodesInv_label_nodup hinv) hnb
  have hblock1 : blockOf st1.nodes nb.id = nodeEvents nb := by
    unfold blockOf
    rw [hfind]
  have hblock2 : blockOf st1.nodes na.id = nodeEvents na := by
    unfold blockOf
    rw [hfind2]
  have hdecomp : traceOf st1.nodes order
      = traceOf st1.nodes o1 ++ nodeEvents nb ++ traceOf st1.nodes o2
        ++ nodeEvents na ++ traceOf st1.nodes o3 := by
    rw [horder]
    simp only [List.append_eq, traceOf_append, traceOf, hblock1, hblock2, List.append_assoc]
  have hself : (cbEvents nb.label nb.callbacks).countP (ownerCb nb.label)
      = nb.callbacks.length := by
    unfold cbEvents
    rw [List.countP_map]
    have hfn : ((ownerCb nb.label) ∘ fun cb : CallbackData =>
        Event.callback nb.label cb.dst) = fun _ => true := by
      funext cb
      simp [ownerCb, Function.comp]
    rw [hfn]
    simp
  refine ⟨traceOf st1.nodes o1,
    cbEvents nb.label nb.callbacks ++ traceOf st1.nodes o2,
    cbEvents na.label na.callbacks ++ traceOf st1.nodes o3,
    ?_, ?_, ?_, ?_, ?_⟩
  · rw [htrace, hdecomp]
    simp [nodeEvents, List.append_assoc]
  · rw [htrace]
    exact hcnt1
  · rw [htrace]
    exact hcnt2
  · rw [List.countP_append, hself]
    have h4 := hcnt3
    rw [hdecomp] at h4
    simp only [List.countP_append] at h4
    rw [nodeEvents_countP_cb, nodeEvents_countP_cb, if_pos rfl,
      if_neg hlabne] at h4
    omega
  · rw [htrace]
    exact hcnt3

/-! ## C1 — dependency ordering of writer calls and callbacks -/

/-- C1: for every applied fixture (no error returned) whose dependency
graph records that node `na` depends on node `nb` (`na.id ∈ nb.fromNodes`,
as built by `parseField` for a `ref` dependency), the writer-facing trace
of `Apply` decomposes as `t1 ++ [insert nb] ++ t2 ++ [insert na] ++ t3`:
the `Insert` for `nb` happens strictly before the `Insert` for `na`
(each occurring exactly once), and every callback registered on `nb`
fires inside `t2` — after `nb`'s successful insert and before the insert
of the dependent `na` (`nb`'s callbacks appear exactly
`nb.callbacks.length` times in the whole trace, all of them within
`t2`). -/
theorem dependency_insert_callback_order (f : Fixture) (fuel : Nat)
    (na nb : NodeData)
    (hok : (applyFixture f fuel).err = none)
    (hna : na ∈ (applyFixture f fuel).st.nodes)
    (hnb : nb ∈ (applyFixture f fuel).st.nodes)
    (hedge : na.id ∈ nb.fromNodes) :
    ∃ t1 t2 t3,
      (applyFixture f fuel).trace
        = t1 ++ Event.insert nb.label ::
            (t2 ++ Event.insert na.label :: t3) ∧
      (applyFixture f fuel).trace.countP (isInsert nb.label) = 1 ∧
      (applyFixture f fuel).trace.countP (isInsert na.label) = 1 ∧
      t2.countP (ownerCb nb.label) = nb.callbacks.length ∧
      (applyFixture f fuel).trace.countP (ownerCb nb.label)
        = nb.callbacks.length :=
  edge_insert_before f fuel na nb hok hna hnb hedge

/-- A writer that assigns the backend id `42` to every inserted record. -/
def w42 : WriterF := fun _ _ r => .ok (setA r "id" (Value.int 42))

/-- Scenario S1: `beta/1` declares `alpha_id = "=ref alpha 1"`, so it
depends on `alpha/1`. -/
def fS1 : Fixture :=
  { writer := some w42
    database := [("alpha", [("1", [])]),
                 ("beta", [("1", [("alpha_id", .str "=ref alpha 1")])])] }

/-- The node `Apply` builds for `alpha/1` in S1: the dependency target,
carrying the dependent's id in `fromNodes` and the `ref` callback. -/
def nbS1 : NodeData :=
  { id := 1, label := ("alpha", "1"), fromNodes := [2],
    callbacks := [{ src := ("alpha", "1", "id"),
                    dst := { table := "beta", key := "1",
                             field := "alpha_id" } }] }

/-- The node `Apply` builds for `beta/1` in S1: the dependent. -/
def naS1 : NodeData := { id := 2, label := ("beta", "1"), toNodes := [1] }

theorem dependency_insert_callback_order_witness :
    (applyFixture fS1 10).err = none ∧
    naS1.id ∈ nbS1.fromNodes ∧
    (∃ t1 t2 t3,
      (applyFixture fS1 10).trace
        = t1 ++ Event.insert nbS1.label ::
            (t2 ++ Event.insert naS1.label :: t3) ∧
      (applyFixture fS1 10).trace.countP (isInsert nbS1.label) = 1 ∧
      (applyFixture fS1 10).trace.countP (isInsert naS1.label) = 1 ∧
      t2.countP (ownerCb nbS1.label) = nbS1.callbacks.length ∧
      (applyFixture fS1 10).trace.countP (ownerCb nbS1.label)
        = nbS1.callbacks.length) :=
  ⟨rfl, by decide,
    dependency_insert_callback_order fS1 10 naS1 nbS1 rfl
      (by decide) (by decide) (by decide)⟩

/-! ## C8 — sync write mode machinery -/

lemma lexLe_total : ∀ as bs, lexLe as bs = true ∨ lexLe bs as = true := by
  intro as
  induction as with
  | nil => intro bs; left; rfl
  | cons a as ih =>
    intro bs
    cases bs with
    | nil => right; rfl
    | cons b bs =>
      by_cases h1 : a.toNat < b.toNat
      · left; simp [lexLe, h1]
      · by_cases h2 : b.toNat < a.toNat
        · right; simp [lexLe, h2]
        · rcases ih bs with h | h
          · left; simp [lexLe, h1, h2, h]
          · right; simp [lexLe, h1, h2, h]

lemma lexLe_trans : ∀ as bs cs, lexLe as bs = true → lexLe bs cs = true →
    lexLe as cs = true := by
  intro as
  induction as with
  | nil => intro bs cs h1 h2; rfl
  | cons a as ih =>
    intro bs cs h1 h2
    cases bs with
    | nil => simp [lexLe] at h1
    | cons b bs =>
      cases cs with
      | nil => simp [lexLe] at h2
      | cons c cs =>
        simp only [lexLe] at h1 h2 ⊢
        by_cases hab : a.toNat < b.toNat
        · by_cases hbc : b.toNat < c.toNat
          · have hac : a.toNat < c.toNat := Nat.lt_trans hab hbc
            simp [hac]
          · by_cases hcb : c.toNat < b.toNat
            · rw [if_neg hbc, if_pos hcb] at h2
              simp at h2
            · have hac : a.toNat < c.toNat := by omega
              simp [hac]
        · by_cases hba : b.toNat < a.toNat
          · rw [if_neg hab, if_pos hba] at h1
            simp at h1
          · by_cases hbc : b.toNat < c.toNat
            · have hac : a.toNat < c.toNat := by omega
              simp [hac]
            · by_cases hcb : c.toNat < b.toNat
              · rw [if_neg hbc, if_pos hcb] at h2
                simp at h2
              · rw [if_neg hab, if_neg hba] at h1
                rw [if_neg hbc, if_neg hcb] at h2
                have hac : ¬ a.toNat < c.toNat := by omega
                have hca : ¬ c.toNat < a.toNat := by omega
                rw [if_neg hac, if_neg hca]
                exact ih bs cs h1 h2

instance : IsTotal String strLeP :=
  ⟨fun a b => lexLe_total a.toList b.toList⟩

instance : IsTrans String strLeP :=
  ⟨fun a b c => lexLe_trans a.toList b.toList c.toList⟩

lemma sortStrings_perm (l : List String) : (sortStrings l).Perm l :=
  List.perm_insertionSort strLeP l

lemma sortStrings_sorted (l : List String) :
    (sortStrings l).Pairwise strLeP :=
  List.sorted_insertionSort strLeP l

/-- The dependency edge "`lb`'s record depends on `la`'s record" as
recorded in a state's node set: `la`'s node lists `lb`'s node id among
its `fromNodes` (so the sort emits `la` first). -/
def EdgeOn (st : EvalSt) (la lb : Label) : Prop :=
  ∃ na nb, findNodeByLabel st.nodes la = some na ∧
    findNodeByLabel st.nodes lb = some nb ∧
    nb.id ∈ na.fromNodes

lemma edgeOn_mono {st st' : EvalSt} (h : Evolves st st') {la lb : Label} :
    EdgeOn st la lb → EdgeOn st' la lb := by
  rintro ⟨na, nb, h1, h2, h3⟩
  obtain ⟨na2, h12, hid1, hsub⟩ := h.2 la na h1
  obtain ⟨nb2, h22, hid2, hx⟩ := h.2 lb nb h2
  refine ⟨na2, nb2, h12, h22, ?_⟩
  rw [hid2]
  exact hsub _ h3

lemma findNodeByLabel_map (g : NodeData → NodeData)
    (hlab : ∀ m, (g m).label = m.label) (nodes : List NodeData) (l : Label)
    (n : NodeData) (h : findNodeByLabel nodes l = some n) :
    findNodeByLabel (nodes.map g) l = some (g n) := by
  unfold findNodeByLabel at *
  rw [List.find?_map]
  rw [show ((fun nd => decide (nd.label = l)) ∘ g)
      = (fun nd => decide (nd.label = l)) from ?_]
  · rw [h]
    rfl
  · funext nd
    simp [Function.comp, hlab]

lemma getNode_findLabel (l : Label) (st : EvalSt) :
    ∃ n, findNodeByLabel (getNode l st).2.nodes l = some n ∧
      n.id = (getNode l st).1 := by
  unfold getNode
  cases hf : findNodeByLabel st.nodes l with
  | some n => exact ⟨n, hf, rfl⟩
  | none =>
    refine ⟨{ id := st.nodeSeq + 1, label := l }, ?_, rfl⟩
    unfold findNodeByLabel at *
    rw [List.find?_append, hf]
    simp

lemma edge_after_appendFrom (i other : Int) (st : EvalSt) (l : Label)
    (n : NodeData) (h : findNodeByLabel st.nodes l = some n)
    (hid : n.id = i) :
    ∃ n2, findNodeByLabel (appendFrom i other st).nodes l = some n2 ∧
      n2.id = n.id ∧ other ∈ n2.fromNodes := by
  unfold appendFrom
  refine ⟨_, findNodeByLabel_map _ ?_ st.nodes l n h, ?_, ?_⟩
  · intro m
    by_cases hm : m.id = i <;> simp [hm]
  · by_cases hm : n.id = i <;> simp [hm]
  · rw [if_pos hid]
    simp

lemma nodes_if_touched (st : EvalSt) (c : Bool) (t : List Label) :
    (if c then { st with touchedNodes := t } else st).nodes = st.nodes := by
  cases c <;> rfl

lemma foldlM_append_ok {α β : Type} (f : β → α → Except String β)
    (l1 l2 : List α) (b b2 : β)
    (h : (l1 ++ l2).foldlM f b = .ok b2) :
    ∃ bm, l1.foldlM f b = .ok bm ∧ l2.foldlM f bm = .ok b2 := by
  induction l1 generalizing b with
  | nil => exact ⟨b, rfl, h⟩
  | cons a l1 ih =>
    rw [List.cons_append, List.foldlM_cons] at h
    simp only [Bind.bind] at h
    obtain ⟨b1, hb1, hrest⟩ := except_bind_ok h
    obtain ⟨bm, hm1, hm2⟩ := ih b1 hrest
    refine ⟨bm, ?_, hm2⟩
    rw [List.foldlM_cons]
    simp only [Bind.bind, hb1, Except.bind]
    exact hm1

lemma parseTableKey_prev (cfg : Config) (dnc : Bool) (fuel : Nat)
    (table : String) (topts : Option TableOptions) (sw : Bool)
    (b : Option String × Table × Database × EvalSt) (key : String)
    (b2 : Option String × Table × Database × EvalSt)
    (h : parseTableKey cfg dnc fuel table topts sw b key = .ok b2) :
    b2.1 = some key := by
  obtain ⟨prev, dbT, rec1, st1⟩ := b
  rw [parseTableKey.eq_def] at h
  try dsimp only at h
  try simp only [Bind.bind] at h
  obtain ⟨fr, hfr, hres⟩ := except_bind_ok h
  obtain ⟨r3, rec3, st3⟩ := fr
  dsimp only at hres
  cases hres
  rfl

lemma edgeOn_syncPrep (table k1 key : String) (node : Int) (stB : EvalSt)
    (n2 : NodeData)
    (hf2 : findNodeByLabel stB.nodes (table, key) = some n2)
    (hid2 : n2.id = node) :
    EdgeOn (appendTo node (getNode (table, k1) stB).1
      (appendFrom (getNode (table, k1) stB).1 node
        (getNode (table, k1) stB).2)) (table, k1) (table, key) := by
  obtain ⟨n1, hf1, hid1⟩ := getNode_findLabel (table, k1) stB
  obtain ⟨n2b, hf2b, hid2b, hx⟩ := (evolves_getNode (table, k1) stB).2 _ n2 hf2
  obtain ⟨n1c, hf1c, hid1c, hmem⟩ := edge_after_appendFrom
    (getNode (table, k1) stB).1 node (getNode (table, k1) stB).2
    (table, k1) n1 hf1 hid1
  obtain ⟨n2c, hf2c, hid2c, hx2⟩ := (evolves_appendFrom
    (getNode (table, k1) stB).1 node (getNode (table, k1) stB).2).2 _ n2b hf2b
  obtain ⟨n1d, hf1d, hid1d, hsub1⟩ := (evolves_appendTo node
    (getNode (table, k1) stB).1 _).2 _ n1c hf1c
  obtain ⟨n2d, hf2d, hid2d, hx3⟩ := (evolves_appendTo node
    (getNode (table, k1) stB).1 _).2 _ n2c hf2c
  refine ⟨n1d, n2d, hf1d, hf2d, ?_⟩
  rw [hid2d, hid2c, hid2b, hid2]
  exact hsub1 _ hmem

lemma parseTableKey_edge (cfg : Config) (dnc : Bool) (fuel : Nat)
    (table : String) (topts : Option TableOptions)
    (k1 : String) (dbT : Table) (rec1 : Database) (st1 : EvalSt)
    (key : String) (b2 : Option String × Table × Database × EvalSt)
    (h : parseTableKey cfg dnc fuel table topts true
      (some k1, dbT, rec1, st1) key = .ok b2) :
    EdgeOn b2.2.2.2 (table, k1) (table, key) := by
  rw [parseTableKey.eq_def] at h
  try dsimp only at h
  try simp only [Bind.bind] at h
  obtain ⟨fr, hfr, hres⟩ := except_bind_ok h
  obtain ⟨r3, rec3, st3⟩ := fr
  dsimp only at hres
  cases hres
  dsimp only
  refine edgeOn_mono (foldlM_evolves
    (fun acc2 : Record × Database × EvalSt => acc2.2.2) _ ?_ _ _ _ hfr) ?_
  · intro c a2 c2 hstep2
    obtain ⟨record, rec4, st4⟩ := c
    dsimp only at hstep2 ⊢
    split at hstep2
    · exact absurd hstep2 (by simp)
    · rename_i x v5 rec5 st5 hpf
      cases hstep2
      exact parseField_evolves cfg dnc fuel _ _ _ _ _ _ _ _ _ _ _ hpf
  · obtain ⟨n2, hf2, hid2⟩ := getNode_findLabel (table, key) st1
    refine edgeOn_syncPrep table k1 key _ _ n2 ?_ hid2
    rw [nodes_if_touched]
    exact hf2

lemma parseTable_sync_edge (cfg : Config) (dnc : Bool) (fuel : Nat)
    (table : String) (tbl : Table) (rec : Database) (st : EvalSt)
    (t2 : Table) (rec2 : Database) (st2 : EvalSt)
    (hsync : syncWritesFor cfg table = true)
    (A B : List String) (k1 k2 : String)
    (hadj : sortStrings (tbl.map (fun p => p.1)) = A ++ k1 :: k2 :: B)
    (h : parseTable cfg dnc fuel table tbl rec st = .ok (t2, rec2, st2)) :
    EdgeOn st2 (table, k1) (table, k2) := by
  rw [parseTable] at h
  simp only [Bind.bind, hsync, if_true] at h
  rw [hadj] at h
  obtain ⟨acc, hacc, hres⟩ := except_bind_ok h
  obtain ⟨bm1, hA, hrest⟩ := foldlM_append_ok _ A _ _ _ hacc
  rw [List.foldlM_cons] at hrest
  try simp only [Bind.bind] at hrest
  obtain ⟨bm2, hk1, hrest2⟩ := except_bind_ok hrest
  rw [List.foldlM_cons] at hrest2
  try simp only [Bind.bind] at hrest2
  obtain ⟨bm3, hk2, hB⟩ := except_bind_ok hrest2
  have hprev : bm2.1 = some k1 :=
    parseTableKey_prev cfg dnc fuel table _ _ bm1 k1 bm2 hk1
  obtain ⟨p2, dbT2, rec2b, st2b⟩ := bm2
  dsimp only at hprev
  subst hprev
  have hedge : EdgeOn bm3.2.2.2 (table, k1) (table, k2) :=
    parseTableKey_edge cfg dnc fuel table _ k1 dbT2 rec2b st2b k2 bm3 hk2
  have hevB : Evolves bm3.2.2.2 acc.2.2.2 :=
    foldlM_evolves
      (fun a : Option String × Table × Database × EvalSt => a.2.2.2) _
      (fun b a b2 hs => parseTableKey_evolves cfg dnc fuel table _ _ b a b2 hs)
      _ _ _ hB
  have hafter : EdgeOn acc.2.2.2 (table, k1) (table, k2) :=
    edgeOn_mono hevB hedge
  simp only [Except.ok.injEq, Prod.mk.injEq] at hres
  obtain ⟨e1, e2, e3⟩ := hres
  exact e3 ▸ hafter

lemma handleDatabaseLevel_sync_edge (cfg : Config) (dnc : Bool) (fuel : Nat)
    (D1 D2 : Database) (table : String) (tbl : Table)
    (st : EvalSt) (aliased : Bool)
    (db' rec' : Database) (st' : EvalSt)
    (hsync : syncWritesFor cfg table = true)
    (A B : List String) (k1 k2 : String)
    (hadj : sortStrings (tbl.map (fun p => p.1)) = A ++ k1 :: k2 :: B)
    (h : handleDatabaseLevel cfg dnc fuel (D1 ++ (table, tbl) :: D2) st
      aliased = .ok (db', rec', st')) :
    EdgeOn st' (table, k1) (table, k2) := by
  unfold handleDatabaseLevel at h
  obtain ⟨bm1, hD1, hrest⟩ := foldlM_append_ok _ D1 _ _ _ h
  rw [List.foldlM_cons] at hrest
  try simp only [Bind.bind] at hrest
  obtain ⟨bm2, hT, hD2⟩ := except_bind_ok hrest
  obtain ⟨db1, rec1, st1⟩ := bm1
  dsimp only at hT
  split at hT
  · exact absurd hT (by simp)
  · rename_i x tb2 recX stX hpt
    cases hT
    have hedge : EdgeOn stX (table, k1) (table, k2) :=
      parseTable_sync_edge cfg dnc fuel table tbl rec1 st1 tb2 recX stX
        hsync A B k1 k2 hadj hpt
    have hev1 : EdgeOn (if aliased then
        { stX with database := setA stX.database table tb2 } else stX)
        (table, k1) (table, k2) :=
      edgeOn_mono (evolves_set_database stX aliased _) hedge
    refine edgeOn_mono (foldlM_evolves
      (fun a : Database × Database × EvalSt => a.2.2) _ ?_ _ _ _ hD2) hev1
    intro b a b2 hb
    obtain ⟨db3, rec3, st3⟩ := b
    dsimp only at hb ⊢
    split at hb
    · exact absurd hb (by simp)
    · rename_i x2 t4 rec4 st4 hpt2
      cases hb
      exact (parseTable_evolves cfg dnc fuel _ _ _ _ _ _ _ hpt2).trans
        (evolves_set_database _ _ _)

lemma handleDatabaseMain_sync_edge (cfg : Config) (dnc : Bool) (fuel : Nat)
    (st st' : EvalSt) (D1 D2 : Database) (table : String) (tbl : Table)
    (hdb : st.database = D1 ++ (table, tbl) :: D2)
    (hsync : syncWritesFor cfg table = true)
    (A B : List String) (k1 k2 : String)
    (hadj : sortStrings (tbl.map (fun p => p.1)) = A ++ k1 :: k2 :: B)
    (h : handleDatabaseMain cfg dnc fuel st = .ok st') :
    EdgeOn st' (table, k1) (table, k2) := by
  cases fuel with
  | zero => exact absurd h (by simp [handleDatabaseMain])
  | succ fuel =>
    rw [handleDatabaseMain] at h
    simp only [Bind.bind] at h
    obtain ⟨⟨db1, rec1, st1⟩, h1, h2⟩ := except_bind_ok h
    rw [hdb] at h1
    have hedge : EdgeOn st1 (table, k1) (table, k2) :=
      handleDatabaseLevel_sync_edge cfg dnc fuel D1 D2 table tbl st true
        db1 rec1 st1 hsync A B k1 k2 hadj h1
    dsimp only at h2
    split at h2
    · try simp only [Bind.bind] at h2
      obtain ⟨⟨rd2, st2⟩, h3, h4⟩ := except_bind_ok h2
      have hev : Evolves st1 st2 :=
        handleDatabaseRec_evolves cfg dnc fuel rec1 st1 rd2 st2 h3
      dsimp only at h4
      cases h4
      exact edgeOn_mono (hev.trans (evolves_same_nodes rfl rfl)) hedge
    · cases h2
      exact hedge

lemma handleFilesModel_sync_edge (cfg : Config) (dnc : Bool) (fuel : Nat)
    (st st' : EvalSt) (D1 D2 : Database) (table : String) (tbl : Table)
    (hdb : st.database = D1 ++ (table, tbl) :: D2)
    (hsync : syncWritesFor cfg table = true)
    (A B : List String) (k1 k2 : String)
    (hadj : sortStrings (tbl.map (fun p => p.1)) = A ++ k1 :: k2 :: B)
    (h : handleFilesModel cfg dnc fuel st = .ok st') :
    EdgeOn st' (table, k1) (table, k2) := by
  unfold handleFilesModel at h
  split at h
  · exact handleDatabaseMain_sync_edge cfg dnc fuel st st' D1 D2 table tbl
      hdb hsync A B k1 k2 hadj h
  · exact absurd h (by simp)

/-- C8: for every table whose effective write-mode is sync (per
`syncWritesFor`, honouring the per-table override), the record keys are
sorted lexicographically before evaluation (`sortStrings` is a
permutation of the keys, pairwise `≤`), and whenever `k1` immediately
precedes `k2` in that sorted order, the final graph records a dependency
edge from `k2`'s record on `k1`'s record (`n2.id ∈ n1.fromNodes`), so on
a successful `Apply` the writer's `Insert` for `(table, k1)` occurs
strictly before the `Insert` for `(table, k2)` — lexicographic key
order. -/
theorem sync_mode_sorts_and_chains (f : Fixture) (fuel : Nat)
    (table : String) (tbl : Table) (D1 D2 : Database)
    (A B : List String) (k1 k2 : String)
    (hdb : f.database = D1 ++ (table, tbl) :: D2)
    (hsync : syncWritesFor ((f.config.getD {}).init) table = true)
    (hadj : sortStrings (tbl.map (fun p => p.1)) = A ++ k1 :: k2 :: B)
    (hok : (applyFixture f fuel).err = none) :
    (sortStrings (tbl.map (fun p => p.1))).Perm (tbl.map (fun p => p.1)) ∧
    (sortStrings (tbl.map (fun p => p.1))).Pairwise strLeP ∧
    ∃ n1 n2,
      findNodeByLabel (applyFixture f fuel).st.nodes (table, k1)
        = some n1 ∧
      findNodeByLabel (applyFixture f fuel).st.nodes (table, k2)
        = some n2 ∧
      n2.id ∈ n1.fromNodes ∧
      ∃ t1 t2 t3,
        (applyFixture f fuel).trace
          = t1 ++ Event.insert (table, k1) ::
              (t2 ++ Event.insert (table, k2) :: t3) ∧
        (applyFixture f fuel).trace.countP (isInsert (table, k1)) = 1 ∧
        (applyFixture f fuel).trace.countP (isInsert (table, k2)) = 1 := by
  have hok' : (applyCore f.config f.writer f.database
      f.doNotCreateDependencies fuel).err = none := hok
  obtain ⟨w, st1, order, db', hw, hH, hT, hW1, htr, hst⟩ :=
    applyCore_success_struct f.config f.writer f.database
      f.doNotCreateDependencies fuel hok'
  have hdb0 : ({ database := f.database, nodes := [], nodeSeq := 0,
                 touchedNodes := [], fresh := 0 } : EvalSt).database
      = D1 ++ (table, tbl) :: D2 := hdb
  have hedge : EdgeOn st1 (table, k1) (table, k2) :=
    handleFilesModel_sync_edge ((f.config.getD {}).init)
      f.doNotCreateDependencies fuel _ st1 D1 D2 table tbl hdb0 hsync
      A B k1 k2 hadj hH
  obtain ⟨n1, n2, hf1, hf2, hmem⟩ := hedge
  have hst' : (applyFixture f fuel).st = { st1 with database := db' } := hst
  have hnodes : (applyFixture f fuel).st.nodes = st1.nodes := by rw [hst']
  have hm1 : n1 ∈ (applyFixture f fuel).st.nodes := by
    rw [hnodes]
    exact findNodeByLabel_mem hf1
  have hm2 : n2 ∈ (applyFixture f fuel).st.nodes := by
    rw [hnodes]
    exact findNodeByLabel_mem hf2
  have hlab1 : n1.label = (table, k1) := findNodeByLabel_label hf1
  have hlab2 : n2.label = (table, k2) := findNodeByLabel_label hf2
  obtain ⟨t1, t2, t3, hdecomp, hc1, hc2, hc4, hc5⟩ :=
    edge_insert_before f fuel n2 n1 hok hm2 hm1 hmem
  refine ⟨sortStrings_perm _, sortStrings_sorted _, n1, n2, ?_, ?_, hmem,
    t1, t2, t3, ?_, ?_, ?_⟩
  · rw [hnodes]
    exact hf1
  · rw [hnodes]
    exact hf2
  · rw [← hlab1, ← hlab2]
    exact hdecomp
  · rw [← hlab1]
    exact hc1
  · rw [← hlab2]
    exact hc2

/-- Scenario S8: table `q` in sync write mode with keys `b`, `a`, `c`. -/
def tblS8 : Table := [("b", []), ("a", []), ("c", [])]

def fS8 : Fixture :=
  { writer := some wId
    config := some { WriteMode := 1 }
    database := [("q", tblS8)] }

theorem sync_mode_sorts_and_chains_witness :
    fS8.database = [] ++ ("q", tblS8) :: [] ∧
    syncWritesFor ((fS8.config.getD {}).init) "q" = true ∧
    sortStrings (tblS8.map (fun p => p.1)) = [] ++ "a" :: "b" :: ["c"] ∧
    (applyFixture fS8 10).err = none ∧
    ((sortStrings (tblS8.map (fun p => p.1))).Perm
        (tblS8.map (fun p => p.1)) ∧
      (sortStrings (tblS8.map (fun p => p.1))).Pairwise strLeP ∧
      ∃ n1 n2,
        findNodeByLabel (applyFixture fS8 10).st.nodes ("q", "a")
          = some n1 ∧
        findNodeByLabel (applyFixture fS8 10).st.nodes ("q", "b")
          = some n2 ∧
        n2.id ∈ n1.fromNodes ∧
        ∃ t1 t2 t3,
          (applyFixture fS8 10).trace
            = t1 ++ Event.insert ("q", "a") ::
                (t2 ++ Event.insert ("q", "b") :: t3) ∧
          (applyFixture fS8 10).trace.countP (isInsert ("q", "a")) = 1 ∧
          (applyFixture fS8 10).trace.countP (isInsert ("q", "b")) = 1) :=
  ⟨rfl, by decide, by decide, rfl,
    sync_mode_sorts_and_chains fS8 10 "q" tblS8 [] [] [] ["c"] "a" "b"
      rfl (by decide) (by decide) rfl⟩
